import Mathlib

/-!
Verification of the compiler front end (`compiler_front_end.py`): a lexer
(`Lexer.tokenize`) producing `(category, lexeme)` token pairs, and a
recursive-descent parser (`Parser`) that walks the token list with a single
cursor, accumulating error strings.

Shallow embedding conventions:
* Text is modelled as `List Char`; token categories and lexemes as `String`,
  exactly the strings the Python code uses (`"KEYWORD"`, `"IDENTIFIER"`, ...).
* The anchored regexes of `TOKEN_TYPES` are embedded as matcher functions
  `List Char → Option Nat` returning the length matched at position 0.
  `\w`/`\b`/whitespace are embedded for the ASCII fragment the program uses.
* The scanning loop of `Lexer.tokenize` consumes at least one character per
  iteration, so it is embedded structurally with fuel equal to the length of
  the remaining text; a fuel-sufficiency theorem below shows the fuel never
  runs out, which is the termination content of the loop.
* The parser's mutable object state (`tokens`, `token_index`, `errors`) is a
  `PState` record threaded through the procedures.  `current_token` is the
  derived value `tokens[token_index]?`, which the Python code keeps in sync.
* The grammar procedures loop and recurse in ways that genuinely diverge on
  some token lists (see the claim about termination), so they are embedded as
  a fuel-indexed interpreter `run : Nat → Proc → PState → Option PState`;
  `none` means the computation did not finish within the given fuel, and
  divergence is `∀ n, run n p s = none`.  The `try/except` in `Parser.parse`
  never fires on a normally terminating walk, so terminating runs are
  faithfully the `some` results.
-/

/-! ## Lexer: character classes and comment stripping -/

/-- ASCII embedding of the regex word class `\w` used by the `\b` boundaries. -/
def isWordChar (c : Char) : Bool := c.isAlpha || c.isDigit || c = '_'

/-- The regex `\b` after a match of length `k`: the next character (if any)
is not a word character. A match ending at the end of the text is a boundary. -/
def boundaryAfter (cs : List Char) (k : Nat) : Bool :=
  match cs.drop k with
  | [] => true
  | c :: _ => !(isWordChar c)

/-- Finds the first `*/` and returns the text after it (the body of
`COMMENT_MULTI`'s non-greedy `[\s\S]*?`); `none` when the comment is
unterminated, in which case `re.sub` leaves the text unchanged. -/
def dropToClose : List Char → Option (List Char)
  | '*' :: '/' :: rest => some rest
  | _ :: rest => dropToClose rest
  | [] => none

/-- `re.sub(TOKEN_TYPES['COMMENT_MULTI'], '', code)`: remove every
`/* ... */` (shortest closing), left to right.  Fuel is the text length;
each step consumes at least one character, so the fuel never runs out. -/
def sbcGo : Nat → List Char → List Char
  | 0, cs => cs
  | n + 1, cs =>
    match cs with
    | '/' :: '*' :: rest =>
      match dropToClose rest with
      | some rest' => sbcGo n rest'
      | none => cs
    | c :: rest => c :: sbcGo n rest
    | [] => []

def stripBlockComments (cs : List Char) : List Char := sbcGo cs.length cs

/-- `re.sub(TOKEN_TYPES['COMMENT_SINGLE'], '', code)`: remove `//` up to (not
including) the next newline.  The `Bool` says whether we are inside a line
comment. -/
def slcGo : Bool → List Char → List Char
  | _, [] => []
  | true, c :: rest => if c = '\n' then c :: slcGo false rest else slcGo true rest
  | false, '/' :: '/' :: rest => slcGo true rest
  | false, c :: rest => c :: slcGo false rest

def stripLineComments (cs : List Char) : List Char := slcGo false cs

/-! ## Lexer: the ordered `TOKEN_TYPES` matchers -/

/-- Alternatives of the `KEYWORD` regex, in the pattern's order. -/
def keywords : List (List Char) :=
  ["int", "float", "double", "char", "return", "if", "else", "for", "while",
   "namespace", "template", "include", "define"].map String.data

/-- `KEYWORD`: `\b(?:int|float|...)\b` anchored at position 0. -/
def kwMatch (cs : List Char) : Option Nat :=
  (keywords.find? fun k => k.isPrefixOf cs && boundaryAfter cs k.length).map List.length

/-- `IDENTIFIER`: `\b[a-zA-Z_][a-zA-Z0-9_]*\b` anchored at position 0. -/
def idMatch : List Char → Option Nat
  | [] => none
  | c :: rest =>
    if c.isAlpha || c = '_' then some (1 + (rest.takeWhile isWordChar).length)
    else none

/-- `PREPROCESSOR`: `#\s*(?:include|define)\b` anchored at position 0. -/
def preprocMatch : List Char → Option Nat
  | [] => none
  | c :: rest =>
    if c = '#' then
      let w := (rest.takeWhile Char.isWhitespace).length
      let r2 := rest.drop w
      if "include".data.isPrefixOf r2 && boundaryAfter r2 7 then some (1 + w + 7)
      else if "define".data.isPrefixOf r2 && boundaryAfter r2 6 then some (1 + w + 6)
      else none
    else none

/-- `CONSTANT_FLOAT`: `\b\d+\.\d+\b` anchored at position 0. -/
def floatMatch (cs : List Char) : Option Nat :=
  let d1 := (cs.takeWhile Char.isDigit).length
  if d1 = 0 then none
  else
    match cs.drop d1 with
    | '.' :: r2 =>
      let d2 := (r2.takeWhile Char.isDigit).length
      if d2 = 0 then none
      else if boundaryAfter r2 d2 then some (d1 + 1 + d2) else none
    | _ => none

/-- `CONSTANT_INT`: `\b\d+\b` anchored at position 0. -/
def intMatch (cs : List Char) : Option Nat :=
  let d := (cs.takeWhile Char.isDigit).length
  if d = 0 then none
  else if boundaryAfter cs d then some d else none

/-- Two-character alternatives of the `OPERATOR` regex, in the pattern's
order, all tried before the single-character class. -/
def twoCharOps : List (List Char) :=
  ["==", "!=", "<=", ">=", "++", "--", "+=", "-=", "*=", "/=", "&&", "||",
   "<<", ">>"].map String.data

/-- The single-character class `[+\-*/=<>!&|%^~]` of `OPERATOR`. -/
def singleOps : List Char := "+-*/=<>!&|%^~".data

/-- `OPERATOR`: ordered alternation, longest forms first. -/
def opMatch (cs : List Char) : Option Nat :=
  match twoCharOps.find? fun k => k.isPrefixOf cs with
  | some _ => some 2
  | none =>
    match cs with
    | c :: _ => if singleOps.contains c then some 1 else none
    | [] => none

/-- The class `[{}();,<>]` of `PUNCTUATOR`. -/
def punctChars : List Char := "\x7b\x7d();,<>".data

/-- `PUNCTUATOR`: `[{}();,<>]` anchored at position 0. -/
def punctMatch : List Char → Option Nat
  | c :: _ => if punctChars.contains c then some 1 else none
  | [] => none

/-- Body scan of `STRING_LITERAL` after the opening quote: `(?:\\.|[^"\\])*"`,
where `.` does not match a newline.  `acc` counts consumed characters
including the opening quote. -/
def strBody : List Char → Nat → Option Nat
  | [], _ => none
  | c :: rest, acc =>
    if c = '"' then some (acc + 1)
    else if c = '\\' then
      match rest with
      | [] => none
      | c2 :: rest2 => if c2 = '\n' then none else strBody rest2 (acc + 2)
    else strBody rest (acc + 1)

/-- `STRING_LITERAL`: `"(?:\\.|[^"\\])*"` anchored at position 0. -/
def strMatch : List Char → Option Nat
  | [] => none
  | c :: rest => if c = '"' then strBody rest 1 else none

/-- One pass over `TOKEN_TYPES.items()` in insertion order (the comment
entries are skipped by the loop): the first matcher that succeeds at
position 0 names the emitted category. -/
def firstMatch (cs : List Char) : Option (String × Nat) :=
  match kwMatch cs with
  | some l => some ("KEYWORD", l)
  | none =>
    match idMatch cs with
    | some l => some ("IDENTIFIER", l)
    | none =>
      match preprocMatch cs with
      | some l => some ("PREPROCESSOR", l)
      | none =>
        match floatMatch cs with
        | some l => some ("CONSTANT_FLOAT", l)
        | none =>
          match intMatch cs with
          | some l => some ("CONSTANT_INT", l)
          | none =>
            match opMatch cs with
            | some l => some ("OPERATOR", l)
            | none =>
              match punctMatch cs with
              | some l => some ("PUNCTUATOR", l)
              | none =>
                match strMatch cs with
                | some l => some ("STRING_LITERAL", l)
                | none => none

/-- The scanning loop of `Lexer.tokenize` on the comment-stripped text:
strip leading whitespace (`lstrip`, one character per step), then either
emit the first matching pattern's text as a token and advance past it, or
discard exactly one character.  Fuel is the length of the remaining text;
the fuel-sufficiency theorem below shows the `0` case is never reached
from `tokenize`. -/
def tokenizeGo : Nat → List Char → List (String × String)
  | 0, _ => []
  | _ + 1, [] => []
  | n + 1, c :: rest =>
    if c.isWhitespace then tokenizeGo n rest
    else
      match firstMatch (c :: rest) with
      | some (name, l) =>
        (name, String.mk ((c :: rest).take l)) :: tokenizeGo n ((c :: rest).drop l)
      | none => tokenizeGo n rest

/-- `Lexer.tokenize`: strip block comments, then line comments, then scan. -/
def tokenize (s : String) : List (String × String) :=
  let cs := stripLineComments (stripBlockComments s.data)
  tokenizeGo cs.length cs

/-! ## Parser: state and cursor primitives -/

/-- The mutable state of a `Parser` object: the (immutable) token list, the
cursor `token_index`, and the accumulated `errors`. -/
structure PState where
  tokens : List (String × String)
  idx : Nat
  errors : List String
deriving DecidableEq, Repr

/-- `self.current_token`: `tokens[token_index]` when in range, else `None`.
`Parser.__init__` and `Parser.consume` keep exactly this value in the
`current_token` attribute. -/
def currentToken (s : PState) : Option (String × String) :=
  List.get? s.tokens s.idx

/-- `Parser.error`: append one formatted message to the error log. -/
def perror (s : PState) (msg : String) : PState :=
  { s with errors :=
      s.errors ++ ["Syntax Error at token index " ++ toString s.idx ++ ": " ++ msg] }

/-- `Parser.consume`: advance the cursor by one. -/
def consume (s : PState) : PState :=
  { s with idx := s.idx + 1 }

/-- The `f"{expected_type} {f'({expected_value})' if expected_value else ''}"`
fragment of `Parser.match`'s messages (note the space kept after the type
even when there is no expected value). -/
def mkExpected (ty : String) (v : Option String) : String :=
  ty ++ " " ++ (match v with
    | some x => "(" ++ x ++ ")"
    | none => "")

/-- `Parser.match(expected_type, expected_value=None)`: consume the current
token when its category matches and (when given) its lexeme matches,
otherwise log an error and leave the cursor unchanged.  The `True`/`False`
result of the Python method is discarded by every caller, so it is not
modelled. -/
def matchTok (s : PState) (ty : String) (v : Option String) : PState :=
  match currentToken s with
  | none => perror s ("Expected " ++ mkExpected ty v ++ ", but found end of file.")
  | some (tt, tv) =>
    if tt = ty ∧ (v = none ∨ v = some tv) then consume s
    else
      perror s ("Expected " ++ mkExpected ty v ++ ", but found <" ++ tt ++ ", " ++
        tv ++ ">.")

/-- The list `['int', 'float', 'double', 'char']` used by `Parser.type` and
by the declaration test in `Parser.statement`. -/
def typeKeywords : List String := ["int", "float", "double", "char"]

/-- `Parser.type`: consume a type keyword or log the type error. -/
def typeRule (s : PState) : PState :=
  match currentToken s with
  | some (tt, tv) =>
    if tt = "KEYWORD" ∧ tv ∈ typeKeywords then consume s
    else perror s "Expected a Type (int, float, double, char)."
  | none => perror s "Expected a Type (int, float, double, char)."

/-- The list `['==', '!=', '<', '>', '<=', '>=']` of `Parser.compare_op`. -/
def compareOps : List String := ["==", "!=", "<", ">", "<=", ">="]

/-- `Parser.compare_op`: consume a comparison operator or log an error. -/
def compareOp (s : PState) : PState :=
  match currentToken s with
  | some (tt, tv) =>
    if tt = "OPERATOR" ∧ tv ∈ compareOps then consume s
    else perror s "Expected a Comparison Operator (==, !=, <, >, <=, >=)."
  | none => perror s "Expected a Comparison Operator (==, !=, <, >, <=, >=)."

/-- `Parser.output_item`: consume a string literal or an identifier
(including `endl`, which the code also just consumes), else log an error. -/
def outputItem (s : PState) : PState :=
  match currentToken s with
  | none => perror s "Expected an Output Item (String, Identifier, or endl)."
  | some (tt, _) =>
    if tt = "STRING_LITERAL" then consume s
    else if tt = "IDENTIFIER" then consume s
    else perror s "Expected a String Literal, Identifier, or \x27endl\x27."

/-! ## Parser: the grammar procedures -/

/-- One tag per grammar procedure of `Parser`; the loops inside
`statement_list`, `identifier_list`, `output_list`, `expression` and `term`
get their own tags so each loop iteration is one interpreter step. -/
inductive Proc where
  | program
  | functionDefinition
  | block
  | statementList
  | statement
  | declarationStatement
  | identifierList
  | identifierListLoop
  | assignmentStatement
  | ifStatement
  | condition
  | outputStatement
  | outputList
  | outputListLoop
  | returnStatement
  | expression
  | expressionLoop
  | term
  | termLoop
  | factor

/-- Fuel-indexed interpreter for the grammar procedures.  Each case is the
body of the Python method of the same name; `none` means the fuel ran out,
so divergence of the Python walk is `∀ n, run n p s = none`. -/
def run : Nat → Proc → PState → Option PState
  | 0, _, _ => none
  | n + 1, p, s =>
    match p with
    | .program => run n .functionDefinition s
    | .functionDefinition =>
      let s := typeRule s
      let s := matchTok s "IDENTIFIER" none
      let s := matchTok s "PUNCTUATOR" (some "(")
      let s := matchTok s "PUNCTUATOR" (some ")")
      run n .block s
    | .block =>
      let s := matchTok s "PUNCTUATOR" (some "\x7b")
      match run n .statementList s with
      | none => none
      | some s => some (matchTok s "PUNCTUATOR" (some "\x7d"))
    | .statementList =>
      match currentToken s with
      | none => some s
      | some (_, tv) =>
        if tv = "\x7d" then some s
        else
          match run n .statement s with
          | none => none
          | some r => if r.errors ≠ [] then some r else run n .statementList r
    | .statement =>
      match currentToken s with
      | none => some s
      | some (tt, tv) =>
        if tt = "KEYWORD" ∧ tv ∈ typeKeywords then
          match run n .declarationStatement s with
          | none => none
          | some r => some (matchTok r "PUNCTUATOR" (some ";"))
        else if tt = "IDENTIFIER" then
          match List.get? s.tokens (s.idx + 1) with
          | some (ntt, ntv) =>
            if ntv = "=" then
              match run n .assignmentStatement s with
              | none => none
              | some r => some (matchTok r "PUNCTUATOR" (some ";"))
            else if ntt = "OPERATOR" ∧ ntv = "<<" then
              match run n .outputStatement s with
              | none => none
              | some r => some (matchTok r "PUNCTUATOR" (some ";"))
            else some (perror s "Expected AssignmentStatement or OutputStatement.")
          | none =>
            some (perror s
              "Expected AssignmentStatement or OutputStatement, but found end of file.")
        else if tt = "KEYWORD" ∧ tv = "if" then run n .ifStatement s
        else if tt = "KEYWORD" ∧ tv = "return" then
          match run n .returnStatement s with
          | none => none
          | some r => some (matchTok r "PUNCTUATOR" (some ";"))
        else
          some (consume (perror s
            "Expected a valid Statement (Declaration, Assignment, If, Output, or Return)."))
    | .declarationStatement => run n .identifierList (typeRule s)
    | .identifierList => run n .identifierListLoop (matchTok s "IDENTIFIER" none)
    | .identifierListLoop =>
      match currentToken s with
      | none => some s
      | some (_, tv) =>
        if tv = "," then
          run n .identifierListLoop
            (matchTok (matchTok s "PUNCTUATOR" (some ",")) "IDENTIFIER" none)
        else some s
    | .assignmentStatement =>
      run n .expression (matchTok (matchTok s "IDENTIFIER" none) "OPERATOR" (some "="))
    | .ifStatement =>
      let s := matchTok s "KEYWORD" (some "if")
      let s := matchTok s "PUNCTUATOR" (some "(")
      match run n .condition s with
      | none => none
      | some s =>
        let s := matchTok s "PUNCTUATOR" (some ")")
        match run n .block s with
        | none => none
        | some s =>
          match currentToken s with
          | none => some s
          | some (_, tv) =>
            if tv = "else" then run n .block (matchTok s "KEYWORD" (some "else"))
            else some s
    | .condition =>
      match run n .expression s with
      | none => none
      | some s => run n .expression (compareOp s)
    | .outputStatement => run n .outputList (matchTok s "IDENTIFIER" none)
    | .outputList =>
      run n .outputListLoop (outputItem (matchTok s "OPERATOR" (some "<<")))
    | .outputListLoop =>
      match currentToken s with
      | none => some s
      | some (_, tv) =>
        if tv = "<<" then
          run n .outputListLoop (outputItem (matchTok s "OPERATOR" (some "<<")))
        else some s
    | .returnStatement => run n .expression (matchTok s "KEYWORD" (some "return"))
    | .expression =>
      match run n .term s with
      | none => none
      | some s => run n .expressionLoop s
    | .expressionLoop =>
      match currentToken s with
      | none => some s
      | some (_, tv) =>
        if tv = "+" ∨ tv = "-" then
          match run n .term (consume s) with
          | none => none
          | some s => run n .expressionLoop s
        else some s
    | .term =>
      match run n .factor s with
      | none => none
      | some s => run n .termLoop s
    | .termLoop =>
      match currentToken s with
      | none => some s
      | some (_, tv) =>
        if tv = "*" ∨ tv = "/" then
          match run n .factor (consume s) with
          | none => none
          | some s => run n .termLoop s
        else some s
    | .factor =>
      match currentToken s with
      | none =>
        some (perror s "Expected Factor (Identifier, Constant, or \x27(\x27 Expression \x27)\x27).")
      | some (tt, tv) =>
        if tt = "IDENTIFIER" ∨ tt = "CONSTANT_INT" ∨ tt = "CONSTANT_FLOAT" then
          some (consume s)
        else if tv = "(" then
          let s := matchTok s "PUNCTUATOR" (some "(")
          match run n .expression s with
          | none => none
          | some s => some (matchTok s "PUNCTUATOR" (some ")"))
        else
          some (perror s "Expected Factor (Identifier, Constant, or \x27(\x27 Expression \x27)\x27).")

/-- The state `Parser.__init__(tokens)` builds. -/
def initState (ts : List (String × String)) : PState :=
  { tokens := ts, idx := 0, errors := [] }

/-- `Parser.parse`: walk `program`, log a trailing-token error when the
cursor is not at the end, and report `success = errors == []` together with
the final state (the Python method returns the boolean and exposes the
state on the object). -/
def parse (n : Nat) (ts : List (String × String)) : Option (Bool × PState) :=
  match run n .program (initState ts) with
  | none => none
  | some s =>
    let s :=
      match currentToken s with
      | some (tt, tv) =>
        perror s ("Unexpected token <" ++ tt ++ ", " ++ tv ++ "> after program end.")
      | none => s
    some (s.errors.isEmpty, s)

/-! ## Specification-side definitions used by the theorems -/

/-- How one grammar procedure may change the parser state: the token list is
untouched, the cursor never moves backwards and stays in range, and the
error log is only appended to. -/
structure Evolves (s r : PState) : Prop where
  tokens_eq : r.tokens = s.tokens
  idx_le : s.idx ≤ r.idx
  idx_bounded : s.idx ≤ s.tokens.length → r.idx ≤ s.tokens.length
  errors_ext : ∃ l, r.errors = s.errors ++ l

/-- Remaining tokens ahead of the cursor. -/
def rem (s : PState) : Nat := s.tokens.length - s.idx

/-- Token lists on which every lexeme that the walker uses as a loop or
recursion guard carries the category the walker then expects: `,` and `(`
are Punctuators and `<<` is an Operator.  Every list produced by
`tokenize` has this shape; the walker can diverge without it. -/
def GoodTokens (ts : List (String × String)) : Prop :=
  ∀ p ∈ ts, (p.2 = "," → p.1 = "PUNCTUATOR") ∧ (p.2 = "<<" → p.1 = "OPERATOR") ∧
    (p.2 = "(" → p.1 = "PUNCTUATOR")

instance : DecidablePred GoodTokens := fun ts =>
  List.decidableBAll _ ts

/-- Termination of one grammar procedure from one state. -/
def Terminates (p : Proc) (s : PState) : Prop := ∃ n r, run n p s = some r

/-- A token list on which the grammar walk diverges: inside the declaration
`int x`, the walker meets a token whose lexeme is `,` but whose category is
not `PUNCTUATOR`, so the `identifier_list` loop neither consumes it nor
breaks.  No `tokenize` output contains such a token. -/
def badToks : List (String × String) :=
  [("KEYWORD", "int"), ("IDENTIFIER", "m"), ("PUNCTUATOR", "("),
   ("PUNCTUATOR", ")"), ("PUNCTUATOR", "\x7b"), ("KEYWORD", "int"),
   ("IDENTIFIER", "x"), ("OPERATOR", ",")]

/-! ## Lexer lemmas -/

theorem takeWhile_length_le (p : Char → Bool) (l : List Char) :
    (l.takeWhile p).length ≤ l.length :=
  (List.takeWhile_prefix p).length_le

theorem keywords_facts :
    ∀ k ∈ keywords, 1 ≤ k.length ∧ (k.headD 'a').isWhitespace = false := by
  decide

theorem kwMatch_pos {cs : List Char} {l : Nat} (h : kwMatch cs = some l) :
    1 ≤ l ∧ l ≤ cs.length := by
  unfold kwMatch at h
  cases hf : keywords.find? fun k => k.isPrefixOf cs && boundaryAfter cs k.length with
  | none => rw [hf] at h; simp at h
  | some k =>
    rw [hf] at h
    simp only [Option.map_some', Option.some.injEq] at h
    subst h
    have hmem := List.mem_of_find?_eq_some hf
    have hkpred := List.find?_some hf
    simp only [Bool.and_eq_true] at hkpred
    have hpre : k <+: cs := List.isPrefixOf_iff_prefix.mp hkpred.1
    exact ⟨(keywords_facts k hmem).1, hpre.length_le⟩

theorem idMatch_pos {cs : List Char} {l : Nat} (h : idMatch cs = some l) :
    1 ≤ l ∧ l ≤ cs.length := by
  cases cs with
  | nil => simp [idMatch] at h
  | cons c rest =>
    simp only [idMatch] at h
    split at h
    · simp only [Option.some.injEq] at h
      subst h
      have := takeWhile_length_le isWordChar rest
      simp only [List.length_cons]
      omega
    · simp at h

theorem preprocMatch_pos {cs : List Char} {l : Nat} (h : preprocMatch cs = some l) :
    1 ≤ l ∧ l ≤ cs.length := by
  cases cs with
  | nil => simp [preprocMatch] at h
  | cons c rest =>
    simp only [preprocMatch] at h
    have hw := takeWhile_length_le Char.isWhitespace rest
    split at h
    · split at h
      · rename_i hcond
        simp only [Bool.and_eq_true] at hcond
        have h7 := (List.isPrefixOf_iff_prefix.mp hcond.1).length_le
        simp only [List.length_drop, String.data] at h7
        simp only [List.length_cons, List.length_nil] at h7
        simp only [Option.some.injEq] at h
        subst h
        have hlen : ("include".data : List Char).length = 7 := by decide
        simp only [List.length_cons]
        omega
      · split at h
        · rename_i hcond
          simp only [Bool.and_eq_true] at hcond
          have h6 := (List.isPrefixOf_iff_prefix.mp hcond.1).length_le
          simp only [List.length_drop, String.data] at h6
          simp only [List.length_cons, List.length_nil] at h6
          simp only [Option.some.injEq] at h
          subst h
          have hlen : ("define".data : List Char).length = 6 := by decide
          simp only [List.length_cons]
          omega
        · simp at h
    · simp at h

theorem floatMatch_pos {cs : List Char} {l : Nat} (h : floatMatch cs = some l) :
    1 ≤ l ∧ l ≤ cs.length := by
  simp only [floatMatch] at h
  have hd1 := takeWhile_length_le Char.isDigit cs
  split at h
  · simp at h
  · split at h
    · rename_i r2 hdrop
      have hlen : (cs.drop (cs.takeWhile Char.isDigit).length).length = ('.' :: r2).length := by
        rw [hdrop]
      simp only [List.length_drop, List.length_cons] at hlen
      have hd2 := takeWhile_length_le Char.isDigit r2
      split at h
      · simp at h
      · split at h
        · simp only [Option.some.injEq] at h
          omega
        · simp at h
    · simp at h

theorem intMatch_pos {cs : List Char} {l : Nat} (h : intMatch cs = some l) :
    1 ≤ l ∧ l ≤ cs.length := by
  simp only [intMatch] at h
  have hd := takeWhile_length_le Char.isDigit cs
  split at h
  · simp at h
  · split at h
    · simp only [Option.some.injEq] at h
      omega
    · simp at h

theorem twoCharOps_facts : ∀ k ∈ twoCharOps, k.length = 2 := by decide

theorem opMatch_pos {cs : List Char} {l : Nat} (h : opMatch cs = some l) :
    1 ≤ l ∧ l ≤ cs.length := by
  unfold opMatch at h
  cases hf : twoCharOps.find? fun k => k.isPrefixOf cs with
  | some k =>
    rw [hf] at h
    simp only [Option.some.injEq] at h
    subst h
    have hp := List.find?_some hf
    simp only at hp
    have hle := (List.isPrefixOf_iff_prefix.mp hp).length_le
    have := twoCharOps_facts k (List.mem_of_find?_eq_some hf)
    omega
  | none =>
    rw [hf] at h
    cases cs with
    | nil => simp at h
    | cons c rest =>
      simp only at h
      split at h
      · simp only [Option.some.injEq] at h
        subst h
        simp
      · simp at h

theorem punctMatch_pos {cs : List Char} {l : Nat} (h : punctMatch cs = some l) :
    1 ≤ l ∧ l ≤ cs.length := by
  cases cs with
  | nil => simp [punctMatch] at h
  | cons c rest =>
    simp only [punctMatch] at h
    split at h
    · simp only [Option.some.injEq] at h
      subst h
      simp
    · simp at h

theorem strBody_pos :
    ∀ (cs : List Char) (acc : Nat), ∀ r, strBody cs acc = some r →
      acc + 1 ≤ r ∧ r ≤ acc + cs.length := by
  intro cs acc
  induction cs, acc using strBody.induct with
  | case1 acc =>
    intro r h
    exact Option.noConfusion h
  | case2 rest acc =>
    intro r h
    rw [strBody.eq_def] at h
    simp at h
    subst h
    simp
  | case3 acc hne =>
    intro r h
    exact Option.noConfusion h
  | case4 acc tail hne =>
    intro r h
    exact Option.noConfusion h
  | case5 acc c tail hcn hne ih =>
    intro r h
    have hred : strBody ('\\' :: c :: tail) acc = strBody tail (acc + 2) := by
      show (if c = '\n' then none else strBody tail (acc + 2)) = strBody tail (acc + 2)
      rw [if_neg hcn]
    rw [hred] at h
    have := ih r h
    simp only [List.length_cons]
    omega
  | case6 c rest acc hq hb ih =>
    intro r h
    rw [strBody.eq_def] at h
    simp only [if_neg hq, if_neg hb] at h
    have := ih r h
    simp only [List.length_cons]
    omega

theorem strMatch_pos {cs : List Char} {l : Nat} (h : strMatch cs = some l) :
    1 ≤ l ∧ l ≤ cs.length := by
  cases cs with
  | nil => simp [strMatch] at h
  | cons c rest =>
    simp only [strMatch] at h
    split at h
    · have := strBody_pos rest 1 l h
      simp only [List.length_cons]
      omega
    · simp at h

theorem firstMatch_pos {cs : List Char} {name : String} {l : Nat}
    (h : firstMatch cs = some (name, l)) : 1 ≤ l ∧ l ≤ cs.length := by
  unfold firstMatch at h
  cases h1 : kwMatch cs with
  | some x => rw [h1] at h; simp only [Option.some.injEq, Prod.mk.injEq] at h
              exact h.2 ▸ kwMatch_pos h1
  | none =>
  rw [h1] at h
  cases h2 : idMatch cs with
  | some x => rw [h2] at h; simp only [Option.some.injEq, Prod.mk.injEq] at h
              exact h.2 ▸ idMatch_pos h2
  | none =>
  rw [h2] at h
  cases h3 : preprocMatch cs with
  | some x => rw [h3] at h; simp only [Option.some.injEq, Prod.mk.injEq] at h
              exact h.2 ▸ preprocMatch_pos h3
  | none =>
  rw [h3] at h
  cases h4 : floatMatch cs with
  | some x => rw [h4] at h; simp only [Option.some.injEq, Prod.mk.injEq] at h
              exact h.2 ▸ floatMatch_pos h4
  | none =>
  rw [h4] at h
  cases h5 : intMatch cs with
  | some x => rw [h5] at h; simp only [Option.some.injEq, Prod.mk.injEq] at h
              exact h.2 ▸ intMatch_pos h5
  | none =>
  rw [h5] at h
  cases h6 : opMatch cs with
  | some x => rw [h6] at h; simp only [Option.some.injEq, Prod.mk.injEq] at h
              exact h.2 ▸ opMatch_pos h6
  | none =>
  rw [h6] at h
  cases h7 : punctMatch cs with
  | some x => rw [h7] at h; simp only [Option.some.injEq, Prod.mk.injEq] at h
              exact h.2 ▸ punctMatch_pos h7
  | none =>
  rw [h7] at h
  cases h8 : strMatch cs with
  | some x => rw [h8] at h; simp only [Option.some.injEq, Prod.mk.injEq] at h
              exact h.2 ▸ strMatch_pos h8
  | none => rw [h8] at h; simp at h

theorem tokenizeGo_mem_len :
    ∀ (n : Nat) (cs : List Char), ∀ p ∈ tokenizeGo n cs, 1 ≤ p.2.length := by
  intro n
  induction n with
  | zero => intro cs p hp; simp [tokenizeGo] at hp
  | succ n ih =>
    intro cs p hp
    cases cs with
    | nil => simp [tokenizeGo] at hp
    | cons c rest =>
      rw [tokenizeGo] at hp
      split at hp
      · exact ih rest p hp
      · split at hp
        · rename_i name l hfm
          rcases List.mem_cons.mp hp with hpeq | hptail
          · subst hpeq
            have hl := firstMatch_pos hfm
            simp only [String.length_mk, List.length_take]
            simp only [List.length_cons] at hl ⊢
            omega
          · exact ih _ p hptail
        · exact ih rest p hp

theorem tokenizeGo_fuel :
    ∀ (k : Nat) (cs : List Char) (n m : Nat), cs.length ≤ k → cs.length ≤ n →
      cs.length ≤ m → tokenizeGo n cs = tokenizeGo m cs := by
  intro k
  induction k with
  | zero =>
    intro cs n m hk _ _
    have : cs = [] := List.length_eq_zero.mp (Nat.le_zero.mp hk)
    subst this
    cases n <;> cases m <;> rfl
  | succ k ih =>
    intro cs n m hk hn hm
    cases cs with
    | nil => cases n <;> cases m <;> rfl
    | cons c rest =>
      simp only [List.length_cons] at hk hn hm
      cases n with
      | zero => omega
      | succ n =>
        cases m with
        | zero => omega
        | succ m =>
          rw [tokenizeGo, tokenizeGo]
          split
          · exact ih rest n m (by omega) (by omega) (by omega)
          · cases hfm : firstMatch (c :: rest) with
            | some p =>
              obtain ⟨name, l⟩ := p
              dsimp only
              have hl := firstMatch_pos hfm
              simp only [List.length_cons] at hl
              have hdrop : ((c :: rest).drop l).length = rest.length + 1 - l := by
                simp [List.length_drop]
              rw [ih ((c :: rest).drop l) n m (by omega) (by omega) (by omega)]
            | none =>
              exact ih rest n m (by omega) (by omega) (by omega)

/-- A keyword alternative is nonempty and starts with a non-whitespace word
character. -/
theorem keywords_head :
    ∀ k ∈ keywords, ∃ c t, k = c :: t ∧ c.isWhitespace = false := by
  intro k hk
  have h := keywords_facts k hk
  cases k with
  | nil => simp at h
  | cons c t => exact ⟨c, t, rfl, by simpa using h.2⟩

/-- When the `KEYWORD` rule matches at the start of the text, the first
pattern pass reports category `KEYWORD`: the lexer's dictionary order tries
`KEYWORD` before `IDENTIFIER` (and everything else). -/
theorem firstMatch_keyword {cs : List Char} {l : Nat} (h : kwMatch cs = some l) :
    firstMatch cs = some ("KEYWORD", l) := by
  unfold firstMatch
  rw [h]

/-- A keyword match starts with a non-whitespace character, so the scanning
loop neither strips it nor fails to see it. -/
theorem kwMatch_head {cs : List Char} {l : Nat} (h : kwMatch cs = some l) :
    ∃ c t, cs = c :: t ∧ c.isWhitespace = false := by
  unfold kwMatch at h
  cases hf : keywords.find? fun k => k.isPrefixOf cs && boundaryAfter cs k.length with
  | none => rw [hf] at h; simp at h
  | some k =>
    have hkpred := List.find?_some hf
    simp only [Bool.and_eq_true] at hkpred
    have hpre : k <+: cs := List.isPrefixOf_iff_prefix.mp hkpred.1
    obtain ⟨c, t, rfl, hwc⟩ := keywords_head k (List.mem_of_find?_eq_some hf)
    cases cs with
    | nil =>
      have := hpre.length_le
      simp at this
    | cons c' t' =>
      have hc := (List.cons_prefix_cons.mp hpre).1
      exact ⟨c', t', rfl, hc ▸ hwc⟩

/-- The emission step: when the `KEYWORD` rule matches at the start of the
remaining text, the scanning loop emits exactly the keyword token (category
`KEYWORD`) and continues after it. -/
theorem tokenizeGo_keyword {cs : List Char} {l : Nat} (n : Nat) (h : kwMatch cs = some l) :
    tokenizeGo (n + 1) cs =
      ("KEYWORD", String.mk (cs.take l)) :: tokenizeGo n (cs.drop l) := by
  obtain ⟨c, t, rfl, hwc⟩ := kwMatch_head h
  rw [tokenizeGo]
  rw [if_neg (by simp [hwc])]
  rw [firstMatch_keyword h]

/-! ## Parser lemmas: how the primitives change the state -/

theorem currentToken_lt {s : PState} {t : String × String}
    (h : currentToken s = some t) : s.idx < s.tokens.length := by
  unfold currentToken at h
  obtain ⟨hlt, -⟩ := List.get?_eq_some.mp h
  exact hlt

theorem currentToken_mem {s : PState} {t : String × String}
    (h : currentToken s = some t) : t ∈ s.tokens :=
  List.get?_mem h

theorem evolves_refl (s : PState) : Evolves s s :=
  ⟨rfl, Nat.le_refl _, fun h => h, [], by simp⟩

theorem evolves_trans {s t u : PState} (h1 : Evolves s t) (h2 : Evolves t u) :
    Evolves s u := by
  obtain ⟨e1, le1, b1, l1, err1⟩ := h1
  obtain ⟨e2, le2, b2, l2, err2⟩ := h2
  refine ⟨e2.trans e1, le1.trans le2, ?_, l1 ++ l2, ?_⟩
  · intro hb
    have := b2 (by rw [e1]; exact b1 hb)
    rwa [e1] at this
  · rw [err2, err1, List.append_assoc]

theorem evolves_perror (s : PState) (msg : String) : Evolves s (perror s msg) :=
  ⟨rfl, Nat.le_refl _, fun h => h, _, rfl⟩

theorem evolves_consume {s : PState} {t : String × String}
    (h : currentToken s = some t) : Evolves s (consume s) :=
  ⟨rfl, Nat.le_succ _, fun _ => currentToken_lt h, [], by simp [consume]⟩

theorem evolves_matchTok (s : PState) (ty : String) (v : Option String) :
    Evolves s (matchTok s ty v) := by
  unfold matchTok
  cases hc : currentToken s with
  | none => exact evolves_perror s _
  | some t =>
    obtain ⟨tt, tv⟩ := t
    dsimp only
    split
    · exact evolves_consume hc
    · exact evolves_perror s _

theorem evolves_typeRule (s : PState) : Evolves s (typeRule s) := by
  unfold typeRule
  cases hc : currentToken s with
  | none => exact evolves_perror s _
  | some t =>
    obtain ⟨tt, tv⟩ := t
    dsimp only
    split
    · exact evolves_consume hc
    · exact evolves_perror s _

theorem evolves_compareOp (s : PState) : Evolves s (compareOp s) := by
  unfold compareOp
  cases hc : currentToken s with
  | none => exact evolves_perror s _
  | some t =>
    obtain ⟨tt, tv⟩ := t
    dsimp only
    split
    · exact evolves_consume hc
    · exact evolves_perror s _

theorem evolves_outputItem (s : PState) : Evolves s (outputItem s) := by
  unfold outputItem
  cases hc : currentToken s with
  | none => exact evolves_perror s _
  | some t =>
    obtain ⟨tt, tv⟩ := t
    dsimp only
    split
    · exact evolves_consume hc
    · split
      · exact evolves_consume hc
      · exact evolves_perror s _

theorem currentToken_perror (s : PState) (msg : String) :
    currentToken (perror s msg) = currentToken s := rfl

/-- Every terminating grammar procedure keeps the token list, never moves the
cursor backwards or out of range, and only appends to the error log. -/
theorem run_evolves :
    ∀ (n : Nat) (p : Proc) (s r : PState), run n p s = some r → Evolves s r := by
  intro n
  induction n with
  | zero => intro p s r h; simp [run] at h
  | succ n ih =>
    intro p s r h
    cases p <;> rw [run] at h <;> try dsimp only at h
    case program => exact ih _ _ _ h
    case functionDefinition =>
      refine evolves_trans ?_ (ih _ _ _ h)
      exact evolves_trans (evolves_trans (evolves_trans (evolves_typeRule s)
        (evolves_matchTok _ _ _)) (evolves_matchTok _ _ _)) (evolves_matchTok _ _ _)
    case block =>
      cases h1 : run n .statementList (matchTok s "PUNCTUATOR" (some "\x7b")) with
      | none => rw [h1] at h; exact absurd h (by simp)
      | some s2 =>
        rw [h1] at h
        obtain rfl : matchTok s2 "PUNCTUATOR" (some "\x7d") = r := Option.some.inj h
        exact evolves_trans (evolves_trans (evolves_matchTok _ _ _) (ih _ _ _ h1))
          (evolves_matchTok _ _ _)
    case statementList =>
      cases hc : currentToken s with
      | none =>
        rw [hc] at h
        obtain rfl : s = r := Option.some.inj h
        exact evolves_refl s
      | some t =>
        obtain ⟨tt, tv⟩ := t
        rw [hc] at h
        dsimp only at h
        split at h
        · obtain rfl : s = r := Option.some.inj h
          exact evolves_refl s
        · cases h1 : run n .statement s with
          | none => rw [h1] at h; exact absurd h (by simp)
          | some r1 =>
            rw [h1] at h
            dsimp only at h
            split at h
            · obtain rfl : r1 = r := Option.some.inj h
              exact ih _ _ _ h1
            · exact evolves_trans (ih _ _ _ h1) (ih _ _ _ h)
    case statement =>
      cases hc : currentToken s with
      | none =>
        rw [hc] at h
        obtain rfl : s = r := Option.some.inj h
        exact evolves_refl s
      | some t =>
        obtain ⟨tt, tv⟩ := t
        rw [hc] at h
        dsimp only at h
        split at h
        · cases h1 : run n .declarationStatement s with
          | none => rw [h1] at h; exact absurd h (by simp)
          | some r1 =>
            rw [h1] at h
            obtain rfl : matchTok r1 "PUNCTUATOR" (some ";") = r := Option.some.inj h
            exact evolves_trans (ih _ _ _ h1) (evolves_matchTok _ _ _)
        · split at h
          · -- identifier: peek at the next token
            cases hn : List.get? s.tokens (s.idx + 1) with
            | some t2 =>
              obtain ⟨ntt, ntv⟩ := t2
              rw [hn] at h
              dsimp only at h
              split at h
              · cases h1 : run n .assignmentStatement s with
                | none => rw [h1] at h; exact absurd h (by simp)
                | some r1 =>
                  rw [h1] at h
                  obtain rfl : matchTok r1 "PUNCTUATOR" (some ";") = r := Option.some.inj h
                  exact evolves_trans (ih _ _ _ h1) (evolves_matchTok _ _ _)
              · split at h
                · cases h1 : run n .outputStatement s with
                  | none => rw [h1] at h; exact absurd h (by simp)
                  | some r1 =>
                    rw [h1] at h
                    obtain rfl : matchTok r1 "PUNCTUATOR" (some ";") = r := Option.some.inj h
                    exact evolves_trans (ih _ _ _ h1) (evolves_matchTok _ _ _)
                · obtain rfl := Option.some.inj h
                  exact evolves_perror s _
            | none =>
              rw [hn] at h
              obtain rfl := Option.some.inj h
              exact evolves_perror s _
          · split at h
            · exact ih _ _ _ h
            · split at h
              · cases h1 : run n .returnStatement s with
                | none => rw [h1] at h; exact absurd h (by simp)
                | some r1 =>
                  rw [h1] at h
                  obtain rfl : matchTok r1 "PUNCTUATOR" (some ";") = r := Option.some.inj h
                  exact evolves_trans (ih _ _ _ h1) (evolves_matchTok _ _ _)
              · obtain rfl := Option.some.inj h
                refine evolves_trans (evolves_perror s _) (@evolves_consume _ (tt, tv) ?_)
                rw [currentToken_perror, hc]
    case declarationStatement =>
      exact evolves_trans (evolves_typeRule s) (ih _ _ _ h)
    case identifierList =>
      exact evolves_trans (evolves_matchTok _ _ _) (ih _ _ _ h)
    case identifierListLoop =>
      cases hc : currentToken s with
      | none =>
        rw [hc] at h
        obtain rfl : s = r := Option.some.inj h
        exact evolves_refl s
      | some t =>
        obtain ⟨tt, tv⟩ := t
        rw [hc] at h
        dsimp only at h
        split at h
        · exact evolves_trans (evolves_trans (evolves_matchTok _ _ _)
            (evolves_matchTok _ _ _)) (ih _ _ _ h)
        · obtain rfl : s = r := Option.some.inj h
          exact evolves_refl s
    case assignmentStatement =>
      exact evolves_trans (evolves_trans (evolves_matchTok _ _ _)
        (evolves_matchTok _ _ _)) (ih _ _ _ h)
    case ifStatement =>
      cases h1 : run n .condition (matchTok (matchTok s "KEYWORD" (some "if"))
          "PUNCTUATOR" (some "(")) with
      | none => rw [h1] at h; exact absurd h (by simp)
      | some s2 =>
        rw [h1] at h
        dsimp only at h
        have e2 : Evolves s s2 :=
          evolves_trans (evolves_trans (evolves_matchTok _ _ _) (evolves_matchTok _ _ _))
            (ih _ _ _ h1)
        cases h2 : run n .block (matchTok s2 "PUNCTUATOR" (some ")")) with
        | none => rw [h2] at h; exact absurd h (by simp)
        | some s3 =>
          rw [h2] at h
          dsimp only at h
          have e3 : Evolves s s3 :=
            evolves_trans (evolves_trans e2 (evolves_matchTok _ _ _)) (ih _ _ _ h2)
          cases hc : currentToken s3 with
          | none =>
            rw [hc] at h
            obtain rfl : s3 = r := Option.some.inj h
            exact e3
          | some t =>
            obtain ⟨tt, tv⟩ := t
            rw [hc] at h
            dsimp only at h
            split at h
            · exact evolves_trans (evolves_trans e3 (evolves_matchTok _ _ _)) (ih _ _ _ h)
            · obtain rfl : s3 = r := Option.some.inj h
              exact e3
    case condition =>
      cases h1 : run n .expression s with
      | none => rw [h1] at h; exact absurd h (by simp)
      | some s2 =>
        rw [h1] at h
        exact evolves_trans (evolves_trans (ih _ _ _ h1) (evolves_compareOp s2))
          (ih _ _ _ h)
    case outputStatement =>
      exact evolves_trans (evolves_matchTok _ _ _) (ih _ _ _ h)
    case outputList =>
      exact evolves_trans (evolves_trans (evolves_matchTok _ _ _)
        (evolves_outputItem _)) (ih _ _ _ h)
    case outputListLoop =>
      cases hc : currentToken s with
      | none =>
        rw [hc] at h
        obtain rfl : s = r := Option.some.inj h
        exact evolves_refl s
      | some t =>
        obtain ⟨tt, tv⟩ := t
        rw [hc] at h
        dsimp only at h
        split at h
        · exact evolves_trans (evolves_trans (evolves_matchTok _ _ _)
            (evolves_outputItem _)) (ih _ _ _ h)
        · obtain rfl : s = r := Option.some.inj h
          exact evolves_refl s
    case returnStatement =>
      exact evolves_trans (evolves_matchTok _ _ _) (ih _ _ _ h)
    case expression =>
      cases h1 : run n .term s with
      | none => rw [h1] at h; exact absurd h (by simp)
      | some s2 =>
        rw [h1] at h
        exact evolves_trans (ih _ _ _ h1) (ih _ _ _ h)
    case expressionLoop =>
      cases hc : currentToken s with
      | none =>
        rw [hc] at h
        obtain rfl : s = r := Option.some.inj h
        exact evolves_refl s
      | some t =>
        obtain ⟨tt, tv⟩ := t
        rw [hc] at h
        dsimp only at h
        split at h
        · cases h1 : run n .term (consume s) with
          | none => rw [h1] at h; exact absurd h (by simp)
          | some s2 =>
            rw [h1] at h
            exact evolves_trans (evolves_trans (evolves_consume hc) (ih _ _ _ h1))
              (ih _ _ _ h)
        · obtain rfl : s = r := Option.some.inj h
          exact evolves_refl s
    case term =>
      cases h1 : run n .factor s with
      | none => rw [h1] at h; exact absurd h (by simp)
      | some s2 =>
        rw [h1] at h
        exact evolves_trans (ih _ _ _ h1) (ih _ _ _ h)
    case termLoop =>
      cases hc : currentToken s with
      | none =>
        rw [hc] at h
        obtain rfl : s = r := Option.some.inj h
        exact evolves_refl s
      | some t =>
        obtain ⟨tt, tv⟩ := t
        rw [hc] at h
        dsimp only at h
        split at h
        · cases h1 : run n .factor (consume s) with
          | none => rw [h1] at h; exact absurd h (by simp)
          | some s2 =>
            rw [h1] at h
            exact evolves_trans (evolves_trans (evolves_consume hc) (ih _ _ _ h1))
              (ih _ _ _ h)
        · obtain rfl : s = r := Option.some.inj h
          exact evolves_refl s
    case factor =>
      cases hc : currentToken s with
      | none =>
        rw [hc] at h
        obtain rfl := Option.some.inj h
        exact evolves_perror s _
      | some t =>
        obtain ⟨tt, tv⟩ := t
        rw [hc] at h
        dsimp only at h
        split at h
        · obtain rfl := Option.some.inj h
          exact evolves_consume hc
        · split at h
          · cases h1 : run n .expression (matchTok s "PUNCTUATOR" (some "(")) with
            | none => rw [h1] at h; exact absurd h (by simp)
            | some s2 =>
              rw [h1] at h
              obtain rfl : matchTok s2 "PUNCTUATOR" (some ")") = r := Option.some.inj h
              exact evolves_trans (evolves_trans (evolves_matchTok _ _ _) (ih _ _ _ h1))
                (evolves_matchTok _ _ _)
          · obtain rfl := Option.some.inj h
            exact evolves_perror s _

/-- More fuel never changes a result that was already reached. -/
theorem run_mono :
    ∀ (n m : Nat) (p : Proc) (s r : PState), n ≤ m → run n p s = some r →
      run m p s = some r := by
  intro n
  induction n with
  | zero => intro m p s r _ h; simp [run] at h
  | succ n ih =>
    intro m p s r hle h
    cases m with
    | zero => omega
    | succ m =>
    have hnm : n ≤ m := by omega
    cases p <;> rw [run] at h ⊢ <;> try dsimp only at h ⊢
    case program => exact ih _ _ _ _ hnm h
    case functionDefinition => exact ih _ _ _ _ hnm h
    case block =>
      cases h1 : run n .statementList (matchTok s "PUNCTUATOR" (some "\x7b")) with
      | none => rw [h1] at h; exact absurd h (by simp)
      | some s2 =>
        rw [h1] at h
        rw [ih _ _ _ _ hnm h1]
        exact h
    case statementList =>
      cases hc : currentToken s with
      | none =>
        rw [hc] at h
        exact h
      | some t =>
        obtain ⟨tt, tv⟩ := t
        rw [hc] at h
        dsimp only at h ⊢
        split at h
        · rw [if_pos (by assumption)]
          exact h
        · rw [if_neg (by assumption)]
          cases h1 : run n .statement s with
          | none => rw [h1] at h; exact absurd h (by simp)
          | some r1 =>
            rw [h1] at h
            rw [ih _ _ _ _ hnm h1]
            dsimp only at h ⊢
            split at h
            · rw [if_pos (by assumption)]
              exact h
            · rw [if_neg (by assumption)]
              exact ih _ _ _ _ hnm h
    case statement =>
      cases hc : currentToken s with
      | none =>
        rw [hc] at h
        exact h
      | some t =>
        obtain ⟨tt, tv⟩ := t
        rw [hc] at h
        dsimp only at h ⊢
        split at h
        · rw [if_pos (by assumption)]
          cases h1 : run n .declarationStatement s with
          | none => rw [h1] at h; exact absurd h (by simp)
          | some r1 =>
            rw [h1] at h
            rw [ih _ _ _ _ hnm h1]
            exact h
        · rw [if_neg (by assumption)]
          split at h
          · rw [if_pos (by assumption)]
            cases hn : List.get? s.tokens (s.idx + 1) with
            | some t2 =>
              obtain ⟨ntt, ntv⟩ := t2
              rw [hn] at h
              dsimp only at h ⊢
              split at h
              · rw [if_pos (by assumption)]
                cases h1 : run n .assignmentStatement s with
                | none => rw [h1] at h; exact absurd h (by simp)
                | some r1 =>
                  rw [h1] at h
                  rw [ih _ _ _ _ hnm h1]
                  exact h
              · rw [if_neg (by assumption)]
                split at h
                · rw [if_pos (by assumption)]
                  cases h1 : run n .outputStatement s with
                  | none => rw [h1] at h; exact absurd h (by simp)
                  | some r1 =>
                    rw [h1] at h
                    rw [ih _ _ _ _ hnm h1]
                    exact h
                · rw [if_neg (by assumption)]
                  exact h
            | none =>
              rw [hn] at h
              exact h
          · rw [if_neg (by assumption)]
            split at h
            · rw [if_pos (by assumption)]
              exact ih _ _ _ _ hnm h
            · rw [if_neg (by assumption)]
              split at h
              · rw [if_pos (by assumption)]
                cases h1 : run n .returnStatement s with
                | none => rw [h1] at h; exact absurd h (by simp)
                | some r1 =>
                  rw [h1] at h
                  rw [ih _ _ _ _ hnm h1]
                  exact h
              · rw [if_neg (by assumption)]
                exact h
    case declarationStatement => exact ih _ _ _ _ hnm h
    case identifierList => exact ih _ _ _ _ hnm h
    case identifierListLoop =>
      cases hc : currentToken s with
      | none =>
        rw [hc] at h
        exact h
      | some t =>
        obtain ⟨tt, tv⟩ := t
        rw [hc] at h
        dsimp only at h ⊢
        split at h
        · rw [if_pos (by assumption)]
          exact ih _ _ _ _ hnm h
        · rw [if_neg (by assumption)]
          exact h
    case assignmentStatement => exact ih _ _ _ _ hnm h
    case ifStatement =>
      cases h1 : run n .condition (matchTok (matchTok s "KEYWORD" (some "if"))
          "PUNCTUATOR" (some "(")) with
      | none => rw [h1] at h; exact absurd h (by simp)
      | some s2 =>
        rw [h1] at h
        rw [ih _ _ _ _ hnm h1]
        dsimp only at h ⊢
        cases h2 : run n .block (matchTok s2 "PUNCTUATOR" (some ")")) with
        | none => rw [h2] at h; exact absurd h (by simp)
        | some s3 =>
          rw [h2] at h
          rw [ih _ _ _ _ hnm h2]
          dsimp only at h ⊢
          cases hc : currentToken s3 with
          | none =>
            rw [hc] at h
            exact h
          | some t =>
            obtain ⟨tt, tv⟩ := t
            rw [hc] at h
            dsimp only at h ⊢
            split at h
            · rw [if_pos (by assumption)]
              exact ih _ _ _ _ hnm h
            · rw [if_neg (by assumption)]
              exact h
    case condition =>
      cases h1 : run n .expression s with
      | none => rw [h1] at h; exact absurd h (by simp)
      | some s2 =>
        rw [h1] at h
        rw [ih _ _ _ _ hnm h1]
        exact ih _ _ _ _ hnm h
    case outputStatement => exact ih _ _ _ _ hnm h
    case outputList => exact ih _ _ _ _ hnm h
    case outputListLoop =>
      cases hc : currentToken s with
      | none =>
        rw [hc] at h
        exact h
      | some t =>
        obtain ⟨tt, tv⟩ := t
        rw [hc] at h
        dsimp only at h ⊢
        split at h
        · rw [if_pos (by assumption)]
          exact ih _ _ _ _ hnm h
        · rw [if_neg (by assumption)]
          exact h
    case returnStatement => exact ih _ _ _ _ hnm h
    case expression =>
      cases h1 : run n .term s with
      | none => rw [h1] at h; exact absurd h (by simp)
      | some s2 =>
        rw [h1] at h
        rw [ih _ _ _ _ hnm h1]
        exact ih _ _ _ _ hnm h
    case expressionLoop =>
      cases hc : currentToken s with
      | none =>
        rw [hc] at h
        exact h
      | some t =>
        obtain ⟨tt, tv⟩ := t
        rw [hc] at h
        dsimp only at h ⊢
        split at h
        · rw [if_pos (by assumption)]
          cases h1 : run n .term (consume s) with
          | none => rw [h1] at h; exact absurd h (by simp)
          | some s2 =>
            rw [h1] at h
            rw [ih _ _ _ _ hnm h1]
            exact ih _ _ _ _ hnm h
        · rw [if_neg (by assumption)]
          exact h
    case term =>
      cases h1 : run n .factor s with
      | none => rw [h1] at h; exact absurd h (by simp)
      | some s2 =>
        rw [h1] at h
        rw [ih _ _ _ _ hnm h1]
        exact ih _ _ _ _ hnm h
    case termLoop =>
      cases hc : currentToken s with
      | none =>
        rw [hc] at h
        exact h
      | some t =>
        obtain ⟨tt, tv⟩ := t
        rw [hc] at h
        dsimp only at h ⊢
        split at h
        · rw [if_pos (by assumption)]
          cases h1 : run n .factor (consume s) with
          | none => rw [h1] at h; exact absurd h (by simp)
          | some s2 =>
            rw [h1] at h
            rw [ih _ _ _ _ hnm h1]
            exact ih _ _ _ _ hnm h
        · rw [if_neg (by assumption)]
          exact h
    case factor =>
      cases hc : currentToken s with
      | none =>
        rw [hc] at h
        exact h
      | some t =>
        obtain ⟨tt, tv⟩ := t
        rw [hc] at h
        dsimp only at h ⊢
        split at h
        · rw [if_pos (by assumption)]
          exact h
        · rw [if_neg (by assumption)]
          split at h
          · rw [if_pos (by assumption)]
            cases h1 : run n .expression (matchTok s "PUNCTUATOR" (some "(")) with
            | none => rw [h1] at h; exact absurd h (by simp)
            | some s2 =>
              rw [h1] at h
              rw [ih _ _ _ _ hnm h1]
              exact h
          · rw [if_neg (by assumption)]
            exact h

/-! ## Evaluation lemmas for the primitives -/

theorem matchTok_consume {s : PState} {tt tv : String} {ty : String} {v : Option String}
    (hc : currentToken s = some (tt, tv)) (hty : tt = ty)
    (hv : v = none ∨ v = some tv) : matchTok s ty v = consume s := by
  unfold matchTok
  rw [hc]
  dsimp only
  rw [if_pos ⟨hty, hv⟩]

theorem typeRule_consume {s : PState} {tt tv : String}
    (hc : currentToken s = some (tt, tv)) (h1 : tt = "KEYWORD")
    (h2 : tv ∈ typeKeywords) : typeRule s = consume s := by
  unfold typeRule
  rw [hc]
  dsimp only
  rw [if_pos ⟨h1, h2⟩]

theorem perror_errors_ne (s : PState) (msg : String) : (perror s msg).errors ≠ s.errors := by
  intro he
  have := congrArg List.length he
  simp [perror] at this

theorem evolves_rem_le {s r : PState} (e : Evolves s r) : rem r ≤ rem s := by
  unfold rem
  rw [e.tokens_eq]
  have := e.idx_le
  omega

theorem evolves_good {s r : PState} (g : GoodTokens s.tokens) (e : Evolves s r) :
    GoodTokens r.tokens := by
  rw [e.tokens_eq]; exact g

theorem evolves_inv {s r : PState} (e : Evolves s r) (h : s.idx ≤ s.tokens.length) :
    r.idx ≤ r.tokens.length := by
  rw [e.tokens_eq]; exact e.idx_bounded h

theorem rem_consume_lt {s : PState} {t : String × String}
    (h : currentToken s = some t) : rem (consume s) < rem s := by
  have := currentToken_lt h
  unfold rem consume
  dsimp only
  omega

theorem consume_idx (s : PState) : (consume s).idx = s.idx + 1 := rfl

/-! ## Progress: a statement attempt with a current token either advances the
cursor or grows the error log -/

theorem statement_progress :
    ∀ (n : Nat) (s r : PState) (t : String × String), run n .statement s = some r →
      currentToken s = some t → s.idx < r.idx ∨ r.errors ≠ s.errors := by
  intro n s r t h hc
  obtain ⟨tt, tv⟩ := t
  cases n with
  | zero => simp [run] at h
  | succ n =>
    rw [run] at h
    rw [hc] at h
    try dsimp only at h
    split at h
    · -- declaration statement
      rename_i hcond
      cases h1 : run n .declarationStatement s with
      | none => rw [h1] at h; exact absurd h (by simp)
      | some r1 =>
        rw [h1] at h
        obtain rfl : matchTok r1 "PUNCTUATOR" (some ";") = r := Option.some.inj h
        left
        cases n with
        | zero => simp [run] at h1
        | succ n =>
          rw [run] at h1
          try dsimp only at h1
          rw [typeRule_consume hc hcond.1 hcond.2] at h1
          have e1 := run_evolves _ _ _ _ h1
          have e2 := evolves_matchTok r1 "PUNCTUATOR" (some ";")
          have := e1.idx_le
          have := e2.idx_le
          simp only [consume_idx] at *
          omega
    · split at h
      · -- identifier statement: assignment / output / error
        rename_i hid
        cases hn : List.get? s.tokens (s.idx + 1) with
        | some t2 =>
          obtain ⟨ntt, ntv⟩ := t2
          rw [hn] at h
          try dsimp only at h
          split at h
          · cases h1 : run n .assignmentStatement s with
            | none => rw [h1] at h; exact absurd h (by simp)
            | some r1 =>
              rw [h1] at h
              obtain rfl : matchTok r1 "PUNCTUATOR" (some ";") = r := Option.some.inj h
              left
              cases n with
              | zero => simp [run] at h1
              | succ n =>
                rw [run] at h1
                try dsimp only at h1
                rw [matchTok_consume hc hid (Or.inl rfl)] at h1
                have e0 := evolves_matchTok (consume s) "OPERATOR" (some "=")
                have e1 := run_evolves _ _ _ _ h1
                have e2 := evolves_matchTok r1 "PUNCTUATOR" (some ";")
                have := e0.idx_le
                have := e1.idx_le
                have := e2.idx_le
                simp only [consume_idx] at *
                omega
          · split at h
            · cases h1 : run n .outputStatement s with
              | none => rw [h1] at h; exact absurd h (by simp)
              | some r1 =>
                rw [h1] at h
                obtain rfl : matchTok r1 "PUNCTUATOR" (some ";") = r := Option.some.inj h
                left
                cases n with
                | zero => simp [run] at h1
                | succ n =>
                  rw [run] at h1
                  try dsimp only at h1
                  rw [matchTok_consume hc hid (Or.inl rfl)] at h1
                  have e1 := run_evolves _ _ _ _ h1
                  have e2 := evolves_matchTok r1 "PUNCTUATOR" (some ";")
                  have := e1.idx_le
                  have := e2.idx_le
                  simp only [consume_idx] at *
                  omega
            · obtain rfl := Option.some.inj h
              right
              exact perror_errors_ne s _
        | none =>
          rw [hn] at h
          obtain rfl := Option.some.inj h
          right
          exact perror_errors_ne s _
      · split at h
        · -- if statement
          rename_i hif
          left
          cases n with
          | zero => simp [run] at h
          | succ n =>
            rw [run] at h
            try dsimp only at h
            rw [matchTok_consume hc hif.1 (Or.inr (by rw [hif.2]))] at h
            have e0 := evolves_matchTok (consume s) "PUNCTUATOR" (some "(")
            cases h1 : run n .condition (matchTok (consume s) "PUNCTUATOR" (some "(")) with
            | none => rw [h1] at h; exact absurd h (by simp)
            | some s2 =>
              rw [h1] at h
              try dsimp only at h
              have e1 := run_evolves _ _ _ _ h1
              have e15 := evolves_matchTok s2 "PUNCTUATOR" (some ")")
              cases h2 : run n .block (matchTok s2 "PUNCTUATOR" (some ")")) with
              | none => rw [h2] at h; exact absurd h (by simp)
              | some s3 =>
                rw [h2] at h
                try dsimp only at h
                have e2 := run_evolves _ _ _ _ h2
                have hidx : s.idx < s3.idx := by
                  have := e0.idx_le
                  have := e1.idx_le
                  have := e15.idx_le
                  have := e2.idx_le
                  simp only [consume_idx] at *
                  omega
                cases hc3 : currentToken s3 with
                | none =>
                  rw [hc3] at h
                  obtain rfl : s3 = r := Option.some.inj h
                  exact hidx
                | some t3 =>
                  obtain ⟨tt3, tv3⟩ := t3
                  rw [hc3] at h
                  try dsimp only at h
                  split at h
                  · have e3 := evolves_matchTok s3 "KEYWORD" (some "else")
                    have e4 := run_evolves _ _ _ _ h
                    have := e3.idx_le
                    have := e4.idx_le
                    omega
                  · obtain rfl : s3 = r := Option.some.inj h
                    exact hidx
        · split at h
          · -- return statement
            rename_i hret
            cases h1 : run n .returnStatement s with
            | none => rw [h1] at h; exact absurd h (by simp)
            | some r1 =>
              rw [h1] at h
              obtain rfl : matchTok r1 "PUNCTUATOR" (some ";") = r := Option.some.inj h
              left
              cases n with
              | zero => simp [run] at h1
              | succ n =>
                rw [run] at h1
                try dsimp only at h1
                rw [matchTok_consume hc hret.1 (Or.inr (by rw [hret.2]))] at h1
                have e1 := run_evolves _ _ _ _ h1
                have e2 := evolves_matchTok r1 "PUNCTUATOR" (some ";")
                have := e1.idx_le
                have := e2.idx_le
                simp only [consume_idx] at *
                omega
          · -- generic unrecognized statement: error plus forced advance
            obtain rfl := Option.some.inj h
            left
            simp [consume, perror]

/-! ## Termination of the grammar walk on well-categorised token lists -/

theorem good_current {s : PState} {tt tv : String} (g : GoodTokens s.tokens)
    (hc : currentToken s = some (tt, tv)) :
    (tv = "," → tt = "PUNCTUATOR") ∧ (tv = "<<" → tt = "OPERATOR") ∧
      (tv = "(" → tt = "PUNCTUATOR") :=
  g (tt, tv) (currentToken_mem hc)

theorem consume_inv {s : PState} {t : String × String} (hc : currentToken s = some t) :
    (consume s).idx ≤ (consume s).tokens.length := by
  have := currentToken_lt hc
  simp only [consume]
  omega

theorem idloop_terminates :
    ∀ (k : Nat) (s : PState), GoodTokens s.tokens → s.idx ≤ s.tokens.length →
      rem s ≤ k → Terminates .identifierListLoop s := by
  intro k
  induction k with
  | zero =>
    intro s g inv hk
    have hnone : currentToken s = none := by
      unfold currentToken
      rw [List.get?_eq_none]
      unfold rem at hk
      omega
    exact ⟨1, s, by rw [run, hnone]⟩
  | succ k ih =>
    intro s g inv hk
    cases hc : currentToken s with
    | none => exact ⟨1, s, by rw [run, hc]⟩
    | some t =>
      obtain ⟨tt, tv⟩ := t
      by_cases htv : tv = ","
      · have htt : tt = "PUNCTUATOR" := (good_current g hc).1 htv
        have hcons : matchTok s "PUNCTUATOR" (some ",") = consume s :=
          matchTok_consume hc htt (Or.inr (by rw [htv]))
        have hlt := rem_consume_lt hc
        have e2 := evolves_matchTok (consume s) "IDENTIFIER" none
        have g2 : GoodTokens (matchTok (consume s) "IDENTIFIER" none).tokens := by
          rw [e2.tokens_eq]
          exact g
        have inv2 := evolves_inv e2 (consume_inv hc)
        have hrem2 : rem (matchTok (consume s) "IDENTIFIER" none) ≤ k := by
          have := evolves_rem_le e2
          omega
        obtain ⟨n1, r1, h1⟩ := ih _ g2 inv2 hrem2
        refine ⟨n1 + 1, r1, ?_⟩
        rw [run, hc]
        dsimp only
        rw [if_pos htv, hcons]
        exact h1
      · exact ⟨1, s, by rw [run, hc]; dsimp only; rw [if_neg htv]⟩

theorem outloop_terminates :
    ∀ (k : Nat) (s : PState), GoodTokens s.tokens → s.idx ≤ s.tokens.length →
      rem s ≤ k → Terminates .outputListLoop s := by
  intro k
  induction k with
  | zero =>
    intro s g inv hk
    have hnone : currentToken s = none := by
      unfold currentToken
      rw [List.get?_eq_none]
      unfold rem at hk
      omega
    exact ⟨1, s, by rw [run, hnone]⟩
  | succ k ih =>
    intro s g inv hk
    cases hc : currentToken s with
    | none => exact ⟨1, s, by rw [run, hc]⟩
    | some t =>
      obtain ⟨tt, tv⟩ := t
      by_cases htv : tv = "<<"
      · have htt : tt = "OPERATOR" := (good_current g hc).2.1 htv
        have hcons : matchTok s "OPERATOR" (some "<<") = consume s :=
          matchTok_consume hc htt (Or.inr (by rw [htv]))
        have hlt := rem_consume_lt hc
        have e2 := evolves_outputItem (consume s)
        have g2 : GoodTokens (outputItem (consume s)).tokens := by
          rw [e2.tokens_eq]
          exact g
        have inv2 := evolves_inv e2 (consume_inv hc)
        have hrem2 : rem (outputItem (consume s)) ≤ k := by
          have := evolves_rem_le e2
          omega
        obtain ⟨n1, r1, h1⟩ := ih _ g2 inv2 hrem2
        refine ⟨n1 + 1, r1, ?_⟩
        rw [run, hc]
        dsimp only
        rw [if_pos htv, hcons]
        exact h1
      · exact ⟨1, s, by rw [run, hc]; dsimp only; rw [if_neg htv]⟩

theorem expr_terminates :
    ∀ (k : Nat) (s : PState), GoodTokens s.tokens → s.idx ≤ s.tokens.length →
      rem s ≤ k →
      Terminates .termLoop s ∧ Terminates .expressionLoop s ∧ Terminates .factor s ∧
        Terminates .term s ∧ Terminates .expression s := by
  intro k
  induction k using Nat.strong_induction_on with
  | _ k IH =>
  have Htl : ∀ s, GoodTokens s.tokens → s.idx ≤ s.tokens.length → rem s ≤ k →
      Terminates .termLoop s := by
    intro s g inv hk
    cases hc : currentToken s with
    | none => exact ⟨1, s, by rw [run, hc]⟩
    | some t =>
      obtain ⟨tt, tv⟩ := t
      by_cases htv : tv = "*" ∨ tv = "/"
      · have hlt := rem_consume_lt hc
        have hklt : rem (consume s) < k := by omega
        obtain ⟨n1, r1, h1⟩ :=
          (IH (rem (consume s)) hklt (consume s) g (consume_inv hc) (Nat.le_refl _)).2.2.1
        have e1 := run_evolves _ _ _ _ h1
        obtain ⟨n2, r2, h2⟩ :=
          (IH (rem (consume s)) hklt r1
            (evolves_good (show GoodTokens (consume s).tokens from g) e1)
            (evolves_inv e1 (consume_inv hc)) (evolves_rem_le e1)).1
        refine ⟨max n1 n2 + 1, r2, ?_⟩
        rw [run, hc]
        dsimp only
        rw [if_pos htv]
        rw [run_mono n1 (max n1 n2) _ _ _ (Nat.le_max_left n1 n2) h1]
        exact run_mono n2 (max n1 n2) _ _ _ (Nat.le_max_right n1 n2) h2
      · exact ⟨1, s, by rw [run, hc]; dsimp only; rw [if_neg htv]⟩
  have Hel : ∀ s, GoodTokens s.tokens → s.idx ≤ s.tokens.length → rem s ≤ k →
      Terminates .expressionLoop s := by
    intro s g inv hk
    cases hc : currentToken s with
    | none => exact ⟨1, s, by rw [run, hc]⟩
    | some t =>
      obtain ⟨tt, tv⟩ := t
      by_cases htv : tv = "+" ∨ tv = "-"
      · have hlt := rem_consume_lt hc
        have hklt : rem (consume s) < k := by omega
        obtain ⟨n1, r1, h1⟩ :=
          (IH (rem (consume s)) hklt (consume s) g (consume_inv hc) (Nat.le_refl _)).2.2.2.1
        have e1 := run_evolves _ _ _ _ h1
        obtain ⟨n2, r2, h2⟩ :=
          (IH (rem (consume s)) hklt r1
            (evolves_good (show GoodTokens (consume s).tokens from g) e1)
            (evolves_inv e1 (consume_inv hc)) (evolves_rem_le e1)).2.1
        refine ⟨max n1 n2 + 1, r2, ?_⟩
        rw [run, hc]
        dsimp only
        rw [if_pos htv]
        rw [run_mono n1 (max n1 n2) _ _ _ (Nat.le_max_left n1 n2) h1]
        exact run_mono n2 (max n1 n2) _ _ _ (Nat.le_max_right n1 n2) h2
      · exact ⟨1, s, by rw [run, hc]; dsimp only; rw [if_neg htv]⟩
  have Hf : ∀ s, GoodTokens s.tokens → s.idx ≤ s.tokens.length → rem s ≤ k →
      Terminates .factor s := by
    intro s g inv hk
    cases hc : currentToken s with
    | none => exact ⟨1, _, by rw [run, hc]⟩
    | some t =>
      obtain ⟨tt, tv⟩ := t
      by_cases h1 : tt = "IDENTIFIER" ∨ tt = "CONSTANT_INT" ∨ tt = "CONSTANT_FLOAT"
      · exact ⟨1, _, by rw [run, hc]; dsimp only; rw [if_pos h1]⟩
      · by_cases h2 : tv = "("
        · have htt : tt = "PUNCTUATOR" := (good_current g hc).2.2 h2
          have hcons : matchTok s "PUNCTUATOR" (some "(") = consume s :=
            matchTok_consume hc htt (Or.inr (by rw [h2]))
          have hlt := rem_consume_lt hc
          have hklt : rem (consume s) < k := by omega
          obtain ⟨n1, r1, hr1⟩ :=
            (IH (rem (consume s)) hklt (consume s) g (consume_inv hc) (Nat.le_refl _)).2.2.2.2
          refine ⟨n1 + 1, matchTok r1 "PUNCTUATOR" (some ")"), ?_⟩
          rw [run, hc]
          dsimp only
          rw [if_neg h1, if_pos h2]
          rw [hcons, hr1]
        · exact ⟨1, _, by rw [run, hc]; dsimp only; rw [if_neg h1, if_neg h2]⟩
  have Ht : ∀ s, GoodTokens s.tokens → s.idx ≤ s.tokens.length → rem s ≤ k →
      Terminates .term s := by
    intro s g inv hk
    obtain ⟨n1, r1, h1⟩ := Hf s g inv hk
    have e1 := run_evolves _ _ _ _ h1
    obtain ⟨n2, r2, h2⟩ := Htl r1 (evolves_good g e1) (evolves_inv e1 inv)
      (le_trans (evolves_rem_le e1) hk)
    refine ⟨max n1 n2 + 1, r2, ?_⟩
    rw [run]
    rw [run_mono n1 (max n1 n2) _ _ _ (Nat.le_max_left n1 n2) h1]
    exact run_mono n2 (max n1 n2) _ _ _ (Nat.le_max_right n1 n2) h2
  have He : ∀ s, GoodTokens s.tokens → s.idx ≤ s.tokens.length → rem s ≤ k →
      Terminates .expression s := by
    intro s g inv hk
    obtain ⟨n1, r1, h1⟩ := Ht s g inv hk
    have e1 := run_evolves _ _ _ _ h1
    obtain ⟨n2, r2, h2⟩ := Hel r1 (evolves_good g e1) (evolves_inv e1 inv)
      (le_trans (evolves_rem_le e1) hk)
    refine ⟨max n1 n2 + 1, r2, ?_⟩
    rw [run]
    rw [run_mono n1 (max n1 n2) _ _ _ (Nat.le_max_left n1 n2) h1]
    exact run_mono n2 (max n1 n2) _ _ _ (Nat.le_max_right n1 n2) h2
  intro s g inv hk
  exact ⟨Htl s g inv hk, Hel s g inv hk, Hf s g inv hk, Ht s g inv hk, He s g inv hk⟩

theorem condition_terminates :
    ∀ (s : PState), GoodTokens s.tokens → s.idx ≤ s.tokens.length →
      Terminates .condition s := by
  intro s g inv
  obtain ⟨n1, s2, h1⟩ := (expr_terminates (rem s) s g inv (Nat.le_refl _)).2.2.2.2
  have e1 := run_evolves _ _ _ _ h1
  have e2 := evolves_compareOp s2
  have g2 := evolves_good (evolves_good g e1) e2
  have inv2 := evolves_inv e2 (evolves_inv e1 inv)
  obtain ⟨n2, r2, h2⟩ :=
    (expr_terminates (rem (compareOp s2)) (compareOp s2) g2 inv2 (Nat.le_refl _)).2.2.2.2
  refine ⟨max n1 n2 + 1, r2, ?_⟩
  rw [run]
  rw [run_mono n1 (max n1 n2) _ _ _ (Nat.le_max_left n1 n2) h1]
  exact run_mono n2 (max n1 n2) _ _ _ (Nat.le_max_right n1 n2) h2

theorem identifierList_terminates :
    ∀ (s : PState), GoodTokens s.tokens → s.idx ≤ s.tokens.length →
      Terminates .identifierList s := by
  intro s g inv
  have e1 := evolves_matchTok s "IDENTIFIER" none
  obtain ⟨n1, r1, h1⟩ := idloop_terminates (rem (matchTok s "IDENTIFIER" none)) _
    (evolves_good g e1) (evolves_inv e1 inv) (Nat.le_refl _)
  exact ⟨n1 + 1, r1, by rw [run]; exact h1⟩

theorem declarationStatement_terminates :
    ∀ (s : PState), GoodTokens s.tokens → s.idx ≤ s.tokens.length →
      Terminates .declarationStatement s := by
  intro s g inv
  have e1 := evolves_typeRule s
  obtain ⟨n1, r1, h1⟩ := identifierList_terminates _ (evolves_good g e1) (evolves_inv e1 inv)
  exact ⟨n1 + 1, r1, by rw [run]; exact h1⟩

theorem assignmentStatement_terminates :
    ∀ (s : PState), GoodTokens s.tokens → s.idx ≤ s.tokens.length →
      Terminates .assignmentStatement s := by
  intro s g inv
  have e1 := evolves_matchTok s "IDENTIFIER" none
  have e2 := evolves_matchTok (matchTok s "IDENTIFIER" none) "OPERATOR" (some "=")
  obtain ⟨n1, r1, h1⟩ := (expr_terminates
    (rem (matchTok (matchTok s "IDENTIFIER" none) "OPERATOR" (some "="))) _
    (evolves_good (evolves_good g e1) e2)
    (evolves_inv e2 (evolves_inv e1 inv)) (Nat.le_refl _)).2.2.2.2
  exact ⟨n1 + 1, r1, by rw [run]; exact h1⟩

theorem outputList_terminates :
    ∀ (s : PState), GoodTokens s.tokens → s.idx ≤ s.tokens.length →
      Terminates .outputList s := by
  intro s g inv
  have e1 := evolves_matchTok s "OPERATOR" (some "<<")
  have e2 := evolves_outputItem (matchTok s "OPERATOR" (some "<<"))
  obtain ⟨n1, r1, h1⟩ := outloop_terminates
    (rem (outputItem (matchTok s "OPERATOR" (some "<<")))) _
    (evolves_good (evolves_good g e1) e2)
    (evolves_inv e2 (evolves_inv e1 inv)) (Nat.le_refl _)
  exact ⟨n1 + 1, r1, by rw [run]; exact h1⟩

theorem outputStatement_terminates :
    ∀ (s : PState), GoodTokens s.tokens → s.idx ≤ s.tokens.length →
      Terminates .outputStatement s := by
  intro s g inv
  have e1 := evolves_matchTok s "IDENTIFIER" none
  obtain ⟨n1, r1, h1⟩ := outputList_terminates _ (evolves_good g e1) (evolves_inv e1 inv)
  exact ⟨n1 + 1, r1, by rw [run]; exact h1⟩

theorem returnStatement_terminates :
    ∀ (s : PState), GoodTokens s.tokens → s.idx ≤ s.tokens.length →
      Terminates .returnStatement s := by
  intro s g inv
  have e1 := evolves_matchTok s "KEYWORD" (some "return")
  obtain ⟨n1, r1, h1⟩ := (expr_terminates (rem (matchTok s "KEYWORD" (some "return"))) _
    (evolves_good g e1) (evolves_inv e1 inv) (Nat.le_refl _)).2.2.2.2
  exact ⟨n1 + 1, r1, by rw [run]; exact h1⟩

theorem stmt_terminates :
    ∀ (k : Nat) (s : PState), GoodTokens s.tokens → s.idx ≤ s.tokens.length →
      rem s ≤ k →
      Terminates .statement s ∧ Terminates .statementList s ∧ Terminates .block s := by
  intro k
  induction k using Nat.strong_induction_on with
  | _ k IH =>
  have Hif : ∀ s, GoodTokens s.tokens → s.idx ≤ s.tokens.length → rem s ≤ k →
      currentToken s = some ("KEYWORD", "if") → Terminates .ifStatement s := by
    intro s g inv hk hc
    have hcons : matchTok s "KEYWORD" (some "if") = consume s :=
      matchTok_consume hc rfl (Or.inr rfl)
    have hlt := rem_consume_lt hc
    have e2 := evolves_matchTok (consume s) "PUNCTUATOR" (some "(")
    have g2 := evolves_good (show GoodTokens (consume s).tokens from g) e2
    have inv2 := evolves_inv e2 (consume_inv hc)
    obtain ⟨n1, s2, h1⟩ := condition_terminates _ g2 inv2
    have e3 := run_evolves _ _ _ _ h1
    have e4 := evolves_matchTok s2 "PUNCTUATOR" (some ")")
    have g4 := evolves_good (evolves_good g2 e3) e4
    have inv4 := evolves_inv e4 (evolves_inv e3 inv2)
    have hrem4 : rem (matchTok s2 "PUNCTUATOR" (some ")")) < k := by
      have ha := evolves_rem_le e4
      have hb := evolves_rem_le e3
      have hd := evolves_rem_le e2
      omega
    obtain ⟨n2, s3, h2⟩ := (IH _ hrem4 _ g4 inv4 (Nat.le_refl _)).2.2
    have e5 := run_evolves _ _ _ _ h2
    have g5 := evolves_good g4 e5
    have inv5 := evolves_inv e5 inv4
    cases hc3 : currentToken s3 with
    | none =>
      refine ⟨max n1 n2 + 1, s3, ?_⟩
      rw [run]
      dsimp only
      rw [hcons]
      rw [run_mono n1 (max n1 n2) _ _ _ (Nat.le_max_left n1 n2) h1]
      dsimp only
      rw [run_mono n2 (max n1 n2) _ _ _ (Nat.le_max_right n1 n2) h2]
      dsimp only
      rw [hc3]
    | some t3 =>
      obtain ⟨tt3, tv3⟩ := t3
      by_cases helse : tv3 = "else"
      · have e6 := evolves_matchTok s3 "KEYWORD" (some "else")
        have g6 := evolves_good g5 e6
        have inv6 := evolves_inv e6 inv5
        have hrem6 : rem (matchTok s3 "KEYWORD" (some "else")) < k := by
          have ha := evolves_rem_le e6
          have hb := evolves_rem_le e5
          have hcrem := evolves_rem_le e4
          have hd := evolves_rem_le e3
          have he := evolves_rem_le e2
          omega
        obtain ⟨n3, s4, h3⟩ := (IH _ hrem6 _ g6 inv6 (Nat.le_refl _)).2.2
        refine ⟨max (max n1 n2) n3 + 1, s4, ?_⟩
        rw [run]
        dsimp only
        rw [hcons]
        rw [run_mono n1 (max (max n1 n2) n3) _ _ _
          (le_trans (Nat.le_max_left n1 n2) (Nat.le_max_left _ n3)) h1]
        dsimp only
        rw [run_mono n2 (max (max n1 n2) n3) _ _ _
          (le_trans (Nat.le_max_right n1 n2) (Nat.le_max_left _ n3)) h2]
        dsimp only
        rw [hc3]
        dsimp only
        rw [if_pos helse]
        exact run_mono n3 (max (max n1 n2) n3) _ _ _ (Nat.le_max_right _ n3) h3
      · refine ⟨max n1 n2 + 1, s3, ?_⟩
        rw [run]
        dsimp only
        rw [hcons]
        rw [run_mono n1 (max n1 n2) _ _ _ (Nat.le_max_left n1 n2) h1]
        dsimp only
        rw [run_mono n2 (max n1 n2) _ _ _ (Nat.le_max_right n1 n2) h2]
        dsimp only
        rw [hc3]
        dsimp only
        rw [if_neg helse]
  have Hst : ∀ s, GoodTokens s.tokens → s.idx ≤ s.tokens.length → rem s ≤ k →
      Terminates .statement s := by
    intro s g inv hk
    cases hc : currentToken s with
    | none => exact ⟨1, s, by rw [run, hc]⟩
    | some t =>
      obtain ⟨tt, tv⟩ := t
      by_cases hd : tt = "KEYWORD" ∧ tv ∈ typeKeywords
      · obtain ⟨n1, r1, h1⟩ := declarationStatement_terminates s g inv
        refine ⟨n1 + 1, matchTok r1 "PUNCTUATOR" (some ";"), ?_⟩
        rw [run, hc]
        dsimp only
        rw [if_pos hd, h1]
      · by_cases hid : tt = "IDENTIFIER"
        · cases hn : List.get? s.tokens (s.idx + 1) with
          | some t2 =>
            obtain ⟨ntt, ntv⟩ := t2
            by_cases ha : ntv = "="
            · obtain ⟨n1, r1, h1⟩ := assignmentStatement_terminates s g inv
              refine ⟨n1 + 1, matchTok r1 "PUNCTUATOR" (some ";"), ?_⟩
              rw [run, hc]
              dsimp only
              rw [if_neg hd, if_pos hid, hn]
              dsimp only
              rw [if_pos ha, h1]
            · by_cases ho : ntt = "OPERATOR" ∧ ntv = "<<"
              · obtain ⟨n1, r1, h1⟩ := outputStatement_terminates s g inv
                refine ⟨n1 + 1, matchTok r1 "PUNCTUATOR" (some ";"), ?_⟩
                rw [run, hc]
                dsimp only
                rw [if_neg hd, if_pos hid, hn]
                dsimp only
                rw [if_neg ha, if_pos ho, h1]
              · refine ⟨1, perror s "Expected AssignmentStatement or OutputStatement.", ?_⟩
                rw [run, hc]
                dsimp only
                rw [if_neg hd, if_pos hid, hn]
                dsimp only
                rw [if_neg ha, if_neg ho]
          | none =>
            refine ⟨1, perror s
              "Expected AssignmentStatement or OutputStatement, but found end of file.", ?_⟩
            rw [run, hc]
            dsimp only
            rw [if_neg hd, if_pos hid, hn]
        · by_cases hif : tt = "KEYWORD" ∧ tv = "if"
          · have hcif : currentToken s = some ("KEYWORD", "if") := by
              rw [hc, hif.1, hif.2]
            obtain ⟨n1, r1, h1⟩ := Hif s g inv hk hcif
            refine ⟨n1 + 1, r1, ?_⟩
            rw [run, hc]
            dsimp only
            rw [if_neg hd, if_neg hid, if_pos hif]
            exact h1
          · by_cases hret : tt = "KEYWORD" ∧ tv = "return"
            · obtain ⟨n1, r1, h1⟩ := returnStatement_terminates s g inv
              refine ⟨n1 + 1, matchTok r1 "PUNCTUATOR" (some ";"), ?_⟩
              rw [run, hc]
              dsimp only
              rw [if_neg hd, if_neg hid, if_neg hif, if_pos hret, h1]
            · refine ⟨1, consume (perror s
                "Expected a valid Statement (Declaration, Assignment, If, Output, or Return)."), ?_⟩
              rw [run, hc]
              dsimp only
              rw [if_neg hd, if_neg hid, if_neg hif, if_neg hret]
  have Hsl : ∀ s, GoodTokens s.tokens → s.idx ≤ s.tokens.length → rem s ≤ k →
      Terminates .statementList s := by
    intro s g inv hk
    cases hc : currentToken s with
    | none => exact ⟨1, s, by rw [run, hc]⟩
    | some t =>
      obtain ⟨tt, tv⟩ := t
      by_cases hbr : tv = "\x7d"
      · exact ⟨1, s, by rw [run, hc]; dsimp only; rw [if_pos hbr]⟩
      · obtain ⟨n1, r1, h1⟩ := Hst s g inv hk
        have e1 := run_evolves _ _ _ _ h1
        by_cases herr : r1.errors = []
        · have hprog := statement_progress n1 s r1 (tt, tv) h1 hc
          have hidx : s.idx < r1.idx := by
            rcases hprog with hidx | hne
            · exact hidx
            · exfalso
              obtain ⟨l, hl⟩ := e1.errors_ext
              rw [herr] at hl
              obtain ⟨hsl, -⟩ := List.append_eq_nil.mp hl.symm
              exact hne (by rw [herr, hsl])
          have hremlt : rem r1 < rem s := by
            have := currentToken_lt hc
            unfold rem
            rw [e1.tokens_eq]
            omega
          have hklt : rem r1 < k := by omega
          obtain ⟨n2, r2, h2⟩ := (IH (rem r1) hklt r1 (evolves_good g e1)
            (evolves_inv e1 inv) (Nat.le_refl _)).2.1
          refine ⟨max n1 n2 + 1, r2, ?_⟩
          rw [run, hc]
          dsimp only
          rw [if_neg hbr]
          rw [run_mono n1 (max n1 n2) _ _ _ (Nat.le_max_left n1 n2) h1]
          dsimp only
          rw [if_neg (by simp [herr])]
          exact run_mono n2 (max n1 n2) _ _ _ (Nat.le_max_right n1 n2) h2
        · refine ⟨n1 + 1, r1, ?_⟩
          rw [run, hc]
          dsimp only
          rw [if_neg hbr, h1]
          dsimp only
          rw [if_pos herr]
  have Hbl : ∀ s, GoodTokens s.tokens → s.idx ≤ s.tokens.length → rem s ≤ k →
      Terminates .block s := by
    intro s g inv hk
    have e1 := evolves_matchTok s "PUNCTUATOR" (some "\x7b")
    obtain ⟨n1, r1, h1⟩ := Hsl _ (evolves_good g e1) (evolves_inv e1 inv)
      (le_trans (evolves_rem_le e1) hk)
    refine ⟨n1 + 1, matchTok r1 "PUNCTUATOR" (some "\x7d"), ?_⟩
    rw [run]
    rw [h1]
  intro s g inv hk
  exact ⟨Hst s g inv hk, Hsl s g inv hk, Hbl s g inv hk⟩

theorem parse_terminates :
    ∀ (ts : List (String × String)), GoodTokens ts → ∃ n r, parse n ts = some r := by
  intro ts g
  have inv0 : (initState ts).idx ≤ (initState ts).tokens.length := by
    simp [initState]
  have g0 : GoodTokens (initState ts).tokens := g
  have e1 := evolves_typeRule (initState ts)
  have e2 := evolves_matchTok (typeRule (initState ts)) "IDENTIFIER" none
  have e3 := evolves_matchTok (matchTok (typeRule (initState ts)) "IDENTIFIER" none)
    "PUNCTUATOR" (some "(")
  have e4 := evolves_matchTok (matchTok (matchTok (typeRule (initState ts))
    "IDENTIFIER" none) "PUNCTUATOR" (some "(")) "PUNCTUATOR" (some ")")
  have gm := evolves_good (evolves_good (evolves_good (evolves_good g0 e1) e2) e3) e4
  have invm := evolves_inv e4 (evolves_inv e3 (evolves_inv e2 (evolves_inv e1 inv0)))
  obtain ⟨n1, r1, h1⟩ := (stmt_terminates _ _ gm invm (Nat.le_refl _)).2.2
  have hprog : run (n1 + 2) .program (initState ts) = some r1 := by
    rw [run, run]
    exact h1
  exact ⟨n1 + 2, _, by unfold parse; rw [hprog]⟩

/-! ## Divergence of the walk on a mis-categorised token list -/

theorem idloop_diverges :
    ∀ (n : Nat) (errs : List String),
      run n .identifierListLoop ⟨badToks, 7, errs⟩ = none := by
  intro n
  induction n with
  | zero => intro errs; rfl
  | succ n ih =>
    intro errs
    rw [run]
    rw [show currentToken ⟨badToks, 7, errs⟩ = some ("OPERATOR", ",") from rfl]
    dsimp only
    rw [if_pos rfl]
    exact ih _

theorem identifierList_diverges :
    ∀ (m : Nat), run (m + 1) .identifierList (⟨badToks, 6, []⟩ : PState) = none := by
  intro m
  rw [run]
  exact idloop_diverges m _

theorem declarationStatement_diverges :
    ∀ (m : Nat), run (m + 2) .declarationStatement (⟨badToks, 5, []⟩ : PState) = none := by
  intro m
  rw [run]
  exact identifierList_diverges m

theorem statement_diverges :
    ∀ (m : Nat), run (m + 3) .statement (⟨badToks, 5, []⟩ : PState) = none := by
  intro m
  rw [run]
  rw [show currentToken ⟨badToks, 5, []⟩ = some ("KEYWORD", "int") from rfl]
  dsimp only
  rw [if_pos (show "KEYWORD" = "KEYWORD" ∧ "int" ∈ typeKeywords from ⟨rfl, by decide⟩)]
  rw [declarationStatement_diverges m]

theorem statementList_diverges :
    ∀ (m : Nat), run (m + 4) .statementList (⟨badToks, 5, []⟩ : PState) = none := by
  intro m
  rw [run]
  rw [show currentToken ⟨badToks, 5, []⟩ = some ("KEYWORD", "int") from rfl]
  dsimp only
  rw [if_neg (show ¬("int" = "\x7d") by decide)]
  rw [statement_diverges m]

theorem block_diverges :
    ∀ (m : Nat), run (m + 5) .block (⟨badToks, 4, []⟩ : PState) = none := by
  intro m
  rw [run]
  have h : run (m + 4) .statementList
      (matchTok (⟨badToks, 4, []⟩ : PState) "PUNCTUATOR" (some "\x7b")) = none :=
    statementList_diverges m
  rw [h]

theorem program_diverges :
    ∀ (m : Nat), run (m + 7) .program (initState badToks) = none := by
  intro m
  rw [run, run]
  have h : run (m + 5) .block (matchTok (matchTok (matchTok (typeRule (initState badToks))
      "IDENTIFIER" none) "PUNCTUATOR" (some "(")) "PUNCTUATOR" (some ")")) = none :=
    block_diverges m
  exact h

theorem parse_diverges_badToks : ∀ (n : Nat), parse n badToks = none := by
  intro n
  match n with
  | 0 => rfl
  | 1 => rfl
  | 2 => rfl
  | 3 => rfl
  | 4 => rfl
  | 5 => rfl
  | 6 => rfl
  | m + 7 =>
    unfold parse
    rw [program_diverges m]
/-! ## The claims -/

/-- Claim C1: for every token sequence, `parse` returns `success = true` if
and only if the error log is empty at the end of the walk; and whenever it
returns `true`, the cursor has reached the end of the token sequence — a
remaining token would have appended the trailing-token error. -/
theorem claim_C1 :
    ∀ (n : Nat) (ts : List (String × String)) (b : Bool) (s2 : PState),
      parse n ts = some (b, s2) →
      (b = true ↔ s2.errors = []) ∧
        (b = true → currentToken s2 = none ∧ s2.idx = ts.length) := by
  intro n ts b s2 h
  unfold parse at h
  cases h1 : run n .program (initState ts) with
  | none => rw [h1] at h; exact absurd h (by simp)
  | some s1 =>
    rw [h1] at h
    dsimp only at h
    have e1 := run_evolves _ _ _ _ h1
    cases hc : currentToken s1 with
    | some t =>
      obtain ⟨tt, tv⟩ := t
      rw [hc] at h
      dsimp only at h
      obtain ⟨hb, hs⟩ := Prod.mk.injEq .. ▸ Option.some.inj h
      subst hs
      have hne : (perror s1 ("Unexpected token <" ++ tt ++ ", " ++ tv ++
          "> after program end.")).errors ≠ [] := by
        simp [perror]
      constructor
      · rw [← hb]
        constructor
        · intro hemp
          rw [List.isEmpty_iff] at hemp
          exact absurd hemp hne
        · intro hemp
          exact absurd hemp hne
      · intro hbt
        rw [← hb] at hbt
        rw [List.isEmpty_iff] at hbt
        exact absurd hbt hne
    | none =>
      rw [hc] at h
      dsimp only at h
      obtain ⟨hb, hs⟩ := Prod.mk.injEq .. ▸ Option.some.inj h
      subst hs
      constructor
      · rw [← hb, List.isEmpty_iff]
      · intro _
        refine ⟨hc, ?_⟩
        have hlen : s1.tokens = ts := by
          rw [e1.tokens_eq]
          rfl
        have hub : s1.idx ≤ ts.length := by
          have := e1.idx_bounded (by simp [initState])
          simpa [initState] using this
        have hlb : ts.length ≤ s1.idx := by
          unfold currentToken at hc
          rw [List.get?_eq_none] at hc
          rwa [hlen] at hc
        omega

/-- Witness for C1: `parse` at the spec's positive example, where the verdict
is `true`, the error log is empty, and the cursor sits at index 9 = length. -/
theorem claim_C1_witness :
    parse 32 (tokenize "int main ( ) \x7b return 0 ; \x7d") =
      some (true, ⟨[("KEYWORD", "int"), ("IDENTIFIER", "main"), ("PUNCTUATOR", "("),
        ("PUNCTUATOR", ")"), ("PUNCTUATOR", "\x7b"), ("KEYWORD", "return"),
        ("CONSTANT_INT", "0"), ("PUNCTUATOR", ";"), ("PUNCTUATOR", "\x7d")], 9, []⟩) ∧
    ((true = true ↔ ([] : List String) = []) ∧
      (true = true →
        currentToken ⟨[("KEYWORD", "int"), ("IDENTIFIER", "main"), ("PUNCTUATOR", "("),
          ("PUNCTUATOR", ")"), ("PUNCTUATOR", "\x7b"), ("KEYWORD", "return"),
          ("CONSTANT_INT", "0"), ("PUNCTUATOR", ";"), ("PUNCTUATOR", "\x7d")], 9, []⟩ = none ∧
        (⟨[("KEYWORD", "int"), ("IDENTIFIER", "main"), ("PUNCTUATOR", "("),
          ("PUNCTUATOR", ")"), ("PUNCTUATOR", "\x7b"), ("KEYWORD", "return"),
          ("CONSTANT_INT", "0"), ("PUNCTUATOR", ";"), ("PUNCTUATOR", "\x7d")], 9, []⟩ :
            PState).idx = (tokenize "int main ( ) \x7b return 0 ; \x7d").length)) :=
  ⟨by decide, claim_C1 32 (tokenize "int main ( ) \x7b return 0 ; \x7d") true
    ⟨[("KEYWORD", "int"), ("IDENTIFIER", "main"), ("PUNCTUATOR", "("),
      ("PUNCTUATOR", ")"), ("PUNCTUATOR", "\x7b"), ("KEYWORD", "return"),
      ("CONSTANT_INT", "0"), ("PUNCTUATOR", ";"), ("PUNCTUATOR", "\x7d")], 9, []⟩
    (by decide)⟩

/-- Claim C2: `match` with a category (and optional literal): when the
current token exists and matches, exactly one token is consumed and no error
is appended; otherwise (mismatch or end of input) exactly one error is
appended and the cursor stays exactly where it was. -/
theorem claim_C2 :
    ∀ (s : PState) (ty : String) (v : Option String),
      (∀ tt tv, currentToken s = some (tt, tv) → (tt = ty ∧ (v = none ∨ v = some tv)) →
        (matchTok s ty v).idx = s.idx + 1 ∧ (matchTok s ty v).errors = s.errors) ∧
      (∀ tt tv, currentToken s = some (tt, tv) → ¬(tt = ty ∧ (v = none ∨ v = some tv)) →
        (matchTok s ty v).idx = s.idx ∧
          ∃ e, (matchTok s ty v).errors = s.errors ++ [e]) ∧
      (currentToken s = none →
        (matchTok s ty v).idx = s.idx ∧
          ∃ e, (matchTok s ty v).errors = s.errors ++ [e]) := by
  intro s ty v
  refine ⟨?_, ?_, ?_⟩
  · intro tt tv hc hm
    rw [matchTok_consume hc hm.1 hm.2]
    exact ⟨rfl, rfl⟩
  · intro tt tv hc hm
    unfold matchTok
    rw [hc]
    dsimp only
    rw [if_neg hm]
    exact ⟨rfl, _, rfl⟩
  · intro hc
    unfold matchTok
    rw [hc]
    exact ⟨rfl, _, rfl⟩

/-- Witness for C2: matching `IDENTIFIER` against `<IDENTIFIER, x>` consumes
one token and appends nothing. -/
theorem claim_C2_witness :
    currentToken ⟨[("IDENTIFIER", "x")], 0, []⟩ = some ("IDENTIFIER", "x") ∧
      (matchTok ⟨[("IDENTIFIER", "x")], 0, []⟩ "IDENTIFIER" none).idx = 0 + 1 ∧
      (matchTok ⟨[("IDENTIFIER", "x")], 0, []⟩ "IDENTIFIER" none).errors = [] :=
  ⟨by decide,
    (claim_C2 ⟨[("IDENTIFIER", "x")], 0, []⟩ "IDENTIFIER" none).1 "IDENTIFIER" "x"
      (by decide) ⟨rfl, Or.inl rfl⟩⟩

/-- Counterexample to C3 as stated: in `Statement` with current token
`<IDENTIFIER, x>` and next token `<IDENTIFIER, y>` (literal neither `=` nor
`<<`), the walker records the error but the cursor stays at 0 — it does not
fall through to the generic path, whose unconditional `advance` would have
moved the cursor to 1. -/
theorem claim_C3_counterexample :
    run 1 .statement ⟨[("IDENTIFIER", "x"), ("IDENTIFIER", "y")], 0, []⟩ =
      some ⟨[("IDENTIFIER", "x"), ("IDENTIFIER", "y")], 0,
        ["Syntax Error at token index 0: Expected AssignmentStatement or OutputStatement."]⟩ ∧
    ¬((run 1 .statement ⟨[("IDENTIFIER", "x"), ("IDENTIFIER", "y")], 0, []⟩).map
        PState.idx = some 1) := by
  constructor
  · decide
  · decide

/-- Claim C3 (amended): in `Statement`, when the current token is an
`IDENTIFIER` and the next token's literal is neither `=` nor an `Operator`
`<<`, the walker records the error and returns without advancing (it does
not reach the generic path); separately, the generic unrecognized-statement
branch is the one that logs an error and then unconditionally advances, so
there the cursor moves forward by one. -/
theorem claim_C3 :
    (∀ (n : Nat) (s : PState) (tt tv ntt ntv : String),
      currentToken s = some (tt, tv) → tt = "IDENTIFIER" →
      List.get? s.tokens (s.idx + 1) = some (ntt, ntv) → ntv ≠ "=" →
      ¬(ntt = "OPERATOR" ∧ ntv = "<<") →
      run (n + 1) .statement s =
        some (perror s "Expected AssignmentStatement or OutputStatement.") ∧
      (perror s "Expected AssignmentStatement or OutputStatement.").idx = s.idx) ∧
    (∀ (n : Nat) (s : PState) (tt tv : String),
      currentToken s = some (tt, tv) →
      ¬(tt = "KEYWORD" ∧ tv ∈ typeKeywords) → tt ≠ "IDENTIFIER" →
      ¬(tt = "KEYWORD" ∧ tv = "if") → ¬(tt = "KEYWORD" ∧ tv = "return") →
      run (n + 1) .statement s = some (consume (perror s
        "Expected a valid Statement (Declaration, Assignment, If, Output, or Return).")) ∧
      (consume (perror s
        "Expected a valid Statement (Declaration, Assignment, If, Output, or Return).")).idx =
        s.idx + 1) := by
  constructor
  · intro n s tt tv ntt ntv hc hid hn ha ho
    have hd : ¬(tt = "KEYWORD" ∧ tv ∈ typeKeywords) := by
      rintro ⟨hk, -⟩
      rw [hid] at hk
      exact absurd hk (by decide)
    refine ⟨?_, rfl⟩
    rw [run, hc]
    dsimp only
    rw [if_neg hd, if_pos hid, hn]
    dsimp only
    rw [if_neg ha, if_neg ho]
  · intro n s tt tv hc hd hid hif hret
    refine ⟨?_, rfl⟩
    rw [run, hc]
    dsimp only
    rw [if_neg hd, if_neg hid, if_neg hif, if_neg hret]

/-- Witness for C3 (amended): both branches at concrete states — the
identifier-mismatch state keeps the cursor at 0, the generic branch advances
from 0 to 1. -/
theorem claim_C3_witness :
    (run 1 .statement ⟨[("IDENTIFIER", "x"), ("IDENTIFIER", "y")], 0, []⟩ =
      some (perror ⟨[("IDENTIFIER", "x"), ("IDENTIFIER", "y")], 0, []⟩
        "Expected AssignmentStatement or OutputStatement.") ∧
      (perror ⟨[("IDENTIFIER", "x"), ("IDENTIFIER", "y")], 0, []⟩
        "Expected AssignmentStatement or OutputStatement.").idx = 0) ∧
    (run 1 .statement ⟨[("OPERATOR", "+")], 0, []⟩ =
      some (consume (perror ⟨[("OPERATOR", "+")], 0, []⟩
        "Expected a valid Statement (Declaration, Assignment, If, Output, or Return).")) ∧
      (consume (perror ⟨[("OPERATOR", "+")], 0, []⟩
        "Expected a valid Statement (Declaration, Assignment, If, Output, or Return).")).idx =
        0 + 1) :=
  ⟨claim_C3.1 0 ⟨[("IDENTIFIER", "x"), ("IDENTIFIER", "y")], 0, []⟩ "IDENTIFIER" "x"
      "IDENTIFIER" "y" (by decide) rfl (by decide) (by decide) (by decide),
    claim_C3.2 0 ⟨[("OPERATOR", "+")], 0, []⟩ "OPERATOR" "+" (by decide) (by decide)
      (by decide) (by decide) (by decide)⟩

/-- Claim C4: the `StatementList` loop runs while a current token exists
whose lexeme is not `}`; after each `Statement` attempt it stops as soon as
the error log is non-empty — the result is exactly the state of the first
failing statement, and no further statement at that level is attempted;
with an empty error log it loops on the statement's result. -/
theorem claim_C4 :
    (∀ (n : Nat) (s : PState), currentToken s = none →
      run (n + 1) .statementList s = some s) ∧
    (∀ (n : Nat) (s : PState) (tt : String), currentToken s = some (tt, "\x7d") →
      run (n + 1) .statementList s = some s) ∧
    (∀ (n : Nat) (s : PState) (tt tv : String) (r : PState),
      currentToken s = some (tt, tv) → tv ≠ "\x7d" → run n .statement s = some r →
      r.errors ≠ [] → run (n + 1) .statementList s = some r) ∧
    (∀ (n : Nat) (s : PState) (tt tv : String) (r : PState),
      currentToken s = some (tt, tv) → tv ≠ "\x7d" → run n .statement s = some r →
      r.errors = [] → run (n + 1) .statementList s = run n .statementList r) := by
  refine ⟨?_, ?_, ?_, ?_⟩
  · intro n s hc
    rw [run, hc]
  · intro n s tt hc
    rw [run, hc]
    dsimp only
    rw [if_pos rfl]
  · intro n s tt tv r hc hbr h1 herr
    rw [run, hc]
    dsimp only
    rw [if_neg hbr, h1]
    dsimp only
    rw [if_pos herr]
  · intro n s tt tv r hc hbr h1 herr
    rw [run, hc]
    dsimp only
    rw [if_neg hbr, h1]
    dsimp only
    rw [if_neg (by simp [herr])]

/-- Witness for C4: a statement list whose first statement fails (an
`<OPERATOR, +>` token) stops immediately with that statement's state. -/
theorem claim_C4_witness :
    currentToken ⟨[("OPERATOR", "+")], 0, []⟩ = some ("OPERATOR", "+") ∧
      run 2 .statementList ⟨[("OPERATOR", "+")], 0, []⟩ =
        some (consume (perror ⟨[("OPERATOR", "+")], 0, []⟩
          "Expected a valid Statement (Declaration, Assignment, If, Output, or Return).")) :=
  ⟨by decide,
    claim_C4.2.2.1 1 ⟨[("OPERATOR", "+")], 0, []⟩ "OPERATOR" "+"
      (consume (perror ⟨[("OPERATOR", "+")], 0, []⟩
        "Expected a valid Statement (Declaration, Assignment, If, Output, or Return)."))
      (by decide) (by decide) (by decide) (by decide)⟩

/-- Claim C5: on the tokens of `"int main ( ) { x = 5 }"` (missing
semicolon), `parse` terminates with `success = false` and exactly one error,
which reports the missing `PUNCTUATOR (;)` at token index 8. -/
theorem claim_C5 :
    tokenize "int main ( ) \x7b x = 5 \x7d" =
      [("KEYWORD", "int"), ("IDENTIFIER", "main"), ("PUNCTUATOR", "("),
       ("PUNCTUATOR", ")"), ("PUNCTUATOR", "\x7b"), ("IDENTIFIER", "x"),
       ("OPERATOR", "="), ("CONSTANT_INT", "5"), ("PUNCTUATOR", "\x7d")] ∧
    parse 32 (tokenize "int main ( ) \x7b x = 5 \x7d") =
      some (false,
        ⟨[("KEYWORD", "int"), ("IDENTIFIER", "main"), ("PUNCTUATOR", "("),
          ("PUNCTUATOR", ")"), ("PUNCTUATOR", "\x7b"), ("IDENTIFIER", "x"),
          ("OPERATOR", "="), ("CONSTANT_INT", "5"), ("PUNCTUATOR", "\x7d")], 9,
         ["Syntax Error at token index 8: Expected PUNCTUATOR (;), but found <PUNCTUATOR, \x7d>."]⟩) := by
  constructor
  · decide
  · decide

/-- Claim C6: whenever the `Keyword` rule matches at the start of the
remaining text (so in particular whenever both the `Keyword` and the
`Identifier` rules match), the pattern pass picks `KEYWORD` and the scanner
emits the keyword token, never an identifier; `tokenize "if"` is the single
token `<KEYWORD, if>`. -/
theorem claim_C6 :
    (∀ (cs : List Char) (l : Nat), kwMatch cs = some l →
      firstMatch cs = some ("KEYWORD", l)) ∧
    (∀ (n : Nat) (cs : List Char) (l : Nat), kwMatch cs = some l →
      tokenizeGo (n + 1) cs =
        ("KEYWORD", String.mk (cs.take l)) :: tokenizeGo n (cs.drop l)) ∧
    tokenize "if" = [("KEYWORD", "if")] := by
  refine ⟨?_, ?_, ?_⟩
  · intro cs l h
    exact firstMatch_keyword h
  · intro n cs l h
    exact tokenizeGo_keyword n h
  · decide

/-- Witness for C6: the text `"if"` matches the keyword rule with length 2,
the first matching category is `KEYWORD`, and the scanner emits it. -/
theorem claim_C6_witness :
    kwMatch "if".data = some 2 ∧
      firstMatch "if".data = some ("KEYWORD", 2) ∧
      tokenizeGo 2 "if".data =
        ("KEYWORD", String.mk ("if".data.take 2)) :: tokenizeGo 1 ("if".data.drop 2) :=
  ⟨by decide, claim_C6.1 "if".data 2 (by decide), claim_C6.2.1 1 "if".data 2 (by decide)⟩

/-- Claim C7: during one parse, the cursor is non-decreasing across
`advance`/`expect` and every grammar procedure, and it stays within
`[0, length]` of the token sequence. -/
theorem claim_C7 :
    ∀ (s : PState), s.idx ≤ s.tokens.length →
      ((∀ t, currentToken s = some t →
          (consume s).idx = s.idx + 1 ∧ (consume s).idx ≤ s.tokens.length) ∧
       (∀ ty v, s.idx ≤ (matchTok s ty v).idx ∧
          (matchTok s ty v).idx ≤ s.tokens.length) ∧
       (∀ n p r, run n p s = some r → s.idx ≤ r.idx ∧ r.idx ≤ s.tokens.length)) := by
  intro s inv
  refine ⟨?_, ?_, ?_⟩
  · intro t hc
    exact ⟨rfl, currentToken_lt hc⟩
  · intro ty v
    have e := evolves_matchTok s ty v
    exact ⟨e.idx_le, e.idx_bounded inv⟩
  · intro n p r h
    have e := run_evolves _ _ _ _ h
    exact ⟨e.idx_le, e.idx_bounded inv⟩

/-- Witness for C7: a whole-program walk from index 0 on one token ends
within bounds and did not move backwards. -/
theorem claim_C7_witness :
    ((⟨[("IDENTIFIER", "x")], 0, []⟩ : PState).idx ≤
      (⟨[("IDENTIFIER", "x")], 0, []⟩ : PState).tokens.length) ∧
    ((matchTok ⟨[("IDENTIFIER", "x")], 0, []⟩ "IDENTIFIER" none).idx ≤
      (⟨[("IDENTIFIER", "x")], 0, []⟩ : PState).tokens.length) :=
  ⟨by decide,
    ((claim_C7 ⟨[("IDENTIFIER", "x")], 0, []⟩ (by decide)).2.1 "IDENTIFIER" none).2⟩

/-- Claim C8: every pattern match consumes between one character and the
remaining text; hence the scanner never emits a zero-length token, and the
scanning loop finishes within `length` steps — giving it any fuel of at
least the text length produces the same token list (termination of
`tokenize`). -/
theorem claim_C8 :
    (∀ (cs : List Char) (name : String) (l : Nat), firstMatch cs = some (name, l) →
      1 ≤ l ∧ l ≤ cs.length) ∧
    (∀ (n : Nat) (cs : List Char), ∀ p ∈ tokenizeGo n cs, 1 ≤ p.2.length) ∧
    (∀ (cs : List Char) (n m : Nat), cs.length ≤ n → cs.length ≤ m →
      tokenizeGo n cs = tokenizeGo m cs) := by
  refine ⟨?_, ?_, ?_⟩
  · intro cs name l h
    exact firstMatch_pos h
  · intro n cs p hp
    exact tokenizeGo_mem_len n cs p hp
  · intro cs n m hn hm
    exact tokenizeGo_fuel cs.length cs n m (Nat.le_refl _) hn hm

/-- Witness for C8: on `"if"`, the match has length 2 with both bounds, the
emitted token is non-empty, and any fuel of at least 2 gives the same
tokens. -/
theorem claim_C8_witness :
    (firstMatch "if".data = some ("KEYWORD", 2) ∧ 1 ≤ 2 ∧ 2 ≤ "if".data.length) ∧
    (("KEYWORD", "if") ∈ tokenizeGo 2 "if".data ∧
      1 ≤ (("KEYWORD", "if") : String × String).2.length) ∧
    tokenizeGo 7 "if".data = tokenizeGo 2 "if".data :=
  ⟨⟨by decide, claim_C8.1 "if".data "KEYWORD" 2 (by decide)⟩,
   ⟨by decide, claim_C8.2.1 2 "if".data ("KEYWORD", "if") (by decide)⟩,
   claim_C8.2.2 "if".data 7 2 (by decide) (by decide)⟩

/-- Counterexample to C9 as stated: on the token list of `int m ( ) { int x`
followed by the mis-categorised token `<OPERATOR, ,>`, the `identifier_list`
loop neither advances (the `PUNCTUATOR (,)` match fails without consuming)
nor breaks, so `parse` never returns for any amount of fuel — the walk loops
forever on this finite token sequence. -/
theorem claim_C9_counterexample : ¬ ∃ n r, parse n badToks = some r := by
  rintro ⟨n, r, h⟩
  rw [parse_diverges_badToks n] at h
  exact Option.noConfusion h

/-- Claim C9 (amended): `parse` terminates on every token sequence in which
each token with lexeme `,` or `(` has category `PUNCTUATOR` and each token
with lexeme `<<` has category `OPERATOR` — as every sequence produced by
`tokenize` does.  On such sequences every loop of the walk advances the
cursor or breaks on a non-empty error log. -/
theorem claim_C9 :
    ∀ (ts : List (String × String)), GoodTokens ts → ∃ n r, parse n ts = some r :=
  parse_terminates

/-- Witness for C9 (amended): the tokens of the spec's positive example are
well-categorised and their parse terminates. -/
theorem claim_C9_witness :
    GoodTokens (tokenize "int main ( ) \x7b return 0 ; \x7d") ∧
      ∃ n r, parse n (tokenize "int main ( ) \x7b return 0 ; \x7d") = some r :=
  ⟨by decide, claim_C9 (tokenize "int main ( ) \x7b return 0 ; \x7d") (by decide)⟩

/-- Claim C10: `parse` on the empty token sequence returns `success = false`
with six errors, the first being the missing-Type error at token index 0 and
the rest the end-of-file errors for the remaining expected tokens of
`FunctionDefinition` and `Block`; it reaches the clean verdict path (no
exception) and does not report success. -/
theorem claim_C10 :
    parse 8 [] =
      some (false,
        ⟨[], 0,
         ["Syntax Error at token index 0: Expected a Type (int, float, double, char).",
          "Syntax Error at token index 0: Expected IDENTIFIER , but found end of file.",
          "Syntax Error at token index 0: Expected PUNCTUATOR ((), but found end of file.",
          "Syntax Error at token index 0: Expected PUNCTUATOR ()), but found end of file.",
          "Syntax Error at token index 0: Expected PUNCTUATOR (\x7b), but found end of file.",
          "Syntax Error at token index 0: Expected PUNCTUATOR (\x7d), but found end of file."]⟩) := by
  decide
